import Mathlib

/-!
Verification development for the dexgram vault API worker.

The definitions below are a shallow embedding of the repository's source:

* the account-ledger state machine (upload admission, upload completion and
  file deletion) from the worker entry file (`src/unnamed/part_001`);
* the route dispatch of the same file;
* the session-token codec (`signSessionToken` / `verifySessionToken`) with its
  base64url, UTF-8, JSON and HMAC-SHA-256 building blocks, from
  `src/src/utils/clientCode.ts`.

JavaScript numbers are modelled as `Int` (all quantities involved are integer
byte counts, counters and millisecond/second timestamps); machine overflow and
IEEE-754 rounding are outside the modelled range of the API.  Database rows are
modelled per tenant: every SQL statement of the worker is scoped by
`client_code`, so one tenant's rows and counters are never touched by another
tenant's operations, and a single-tenant state is a faithful projection.
-/

set_option maxRecDepth 20000

namespace Vault

/-! ### Ledger data model (worker entry, `interface UserRow` / `interface FileRow`) -/

/-- `const GB = 1024 * 1024 * 1024` -/
def GB : Int := 1024 * 1024 * 1024

/-- One row of the `users` table (the fields the ledger reads or writes).
`subscription_expires_at` is modelled as the millisecond timestamp
`new Date(iso).getTime()`. -/
structure UserRow where
  quota_gb : Int
  used_bytes : Int
  uploads_count : Int
  downloads_count : Int
  subscription_expires_at : Int
  last_activity_at : Option Int
  deriving DecidableEq

/-- One row of the `files` table. -/
structure FileRow where
  file_id : String
  object_key : String
  size_bytes : Option Int
  mime_type : Option String
  status : String
  created_at : Int
  deleted_at : Option Int
  deriving DecidableEq

/-- The rows of one tenant: its `users` row plus its `files` rows, in table
order (new rows are appended, matching insertion order). -/
structure TenantState where
  user : UserRow
  files : List FileRow
  deriving DecidableEq

/-- `usagePayload(user)` from the worker entry. -/
structure Usage where
  quotaGb : Int
  usedBytes : Int
  uploadsCount : Int
  downloadsCount : Int
  expiresAt : Int
  deriving DecidableEq

def usagePayload (u : UserRow) : Usage :=
  { quotaGb := u.quota_gb
    usedBytes := u.used_bytes
    uploadsCount := u.uploads_count
    downloadsCount := u.downloads_count
    expiresAt := u.subscription_expires_at }

/-- `isSubscriptionActive(iso)`: `Date.now() < new Date(iso).getTime()`. -/
def isSubscriptionActive (nowMs expiresAt : Int) : Bool :=
  nowMs < expiresAt

/-! ### Upload admission (`POST /uploads/request`) -/

/-- The parsed JSON body of `/uploads/request`.  `mimeType = none` models an
absent field; `sizeBytes = none` models an absent field or one for which
`Number.isFinite` is `false`. -/
structure UploadBody where
  mimeType : Option String
  sizeBytes : Option Int
  deriving DecidableEq

/-- The distinct rejections of `/uploads/request`, in source order.
`missingFields` is `badRequest("mimeType and sizeBytes are required")` (400),
`nonPositiveSize` is `badRequest("sizeBytes must be positive")` (400),
`tooLarge` is `badRequest("File too large for plan", 403)`,
`subscriptionExpired` is `badRequest("Subscription expired", 403)`,
`quotaExceeded` is `badRequest("Quota exceeded", 403)`. -/
inductive UploadReject
  | missingFields
  | nonPositiveSize
  | tooLarge
  | subscriptionExpired
  | quotaExceeded
  deriving DecidableEq

/-- The spec's §7 taxonomy maps the three 403 rejections (size over ceiling,
subscription expired, quota exceeded) to `PolicyError`; the 400 rejections are
`ValidationError`. -/
def isPolicyReject : UploadReject → Bool
  | .tooLarge => true
  | .subscriptionExpired => true
  | .quotaExceeded => true
  | _ => false

structure UploadGrant where
  fileId : String
  objectKey : String
  deriving DecidableEq

/-- The `/uploads/request` handler: validation chain, then the `files` INSERT
of a `pending` row carrying the declared size and MIME type.  No `users`
column is touched at this step.  `fileId` stands for the fresh
`crypto.randomUUID()` and `objectKey` for the derived key. -/
def requestUpload (st : TenantState) (body : Option UploadBody)
    (maxUploadBytes nowMs : Int) (fileId objectKey : String) :
    Except UploadReject (TenantState × UploadGrant) :=
  match body with
  | none => .error .missingFields
  | some b =>
    match b.mimeType, b.sizeBytes with
    | none, _ => .error .missingFields
    | some _, none => .error .missingFields
    | some mt, some sizeBytes =>
      if mt = "" then .error .missingFields
      else if sizeBytes ≤ 0 then .error .nonPositiveSize
      else if maxUploadBytes < sizeBytes then .error .tooLarge
      else if ¬ (isSubscriptionActive nowMs st.user.subscription_expires_at = true) then
        .error .subscriptionExpired
      else if st.user.quota_gb * GB < st.user.used_bytes + sizeBytes then
        .error .quotaExceeded
      else
        .ok
          ({ st with
              files := st.files ++
                [{ file_id := fileId
                   object_key := objectKey
                   size_bytes := some sizeBytes
                   mime_type := some mt
                   status := "pending"
                   created_at := nowMs
                   deleted_at := none }] },
            { fileId := fileId, objectKey := objectKey })

/-! ### Upload completion (`POST /uploads/complete`) -/

/-- Outcome of the HEAD probe issued by `verifyObjectAndReadHeaders`.
`failed` covers a thrown fetch error, a probe timeout and a non-success HTTP
status: in each case the helper throws before any database write.
`ok sizeBytes contentType` carries the observed size already coerced through
`Number(headers.get("content-length") || 0)` (see `observedSizeBytes`; the NaN
outcome of that coercion is outside the modelled scope, no claim depends on
it) and the `content-type` header. -/
inductive ProbeOutcome
  | failed
  | ok (sizeBytes : Int) (contentType : Option String)
  deriving DecidableEq

/-- Model of JavaScript `Number(s)` on the strings this API can meet in a
`content-length` header: the empty / all-whitespace string coerces to `0`,
plain decimal digit strings to their value, anything else is NaN (`none`). -/
def jsStringToNumber (s : String) : Option Int :=
  let t := s.trim
  if t = "" then some 0
  else
    match t.toNat? with
    | some n => some (n : Int)
    | none => none

/-- `Number(response.headers.get("content-length") || 0)`: a `null` header and
the empty string both fall to the `|| 0` branch. -/
def observedSizeBytes (contentLength : Option String) : Option Int :=
  match contentLength with
  | none => some 0
  | some s => if s = "" then some 0 else jsStringToNumber s

/-- `SELECT * FROM files WHERE file_id = ? AND client_code = ? AND deleted_at
IS NULL` followed by `.first()`: the first matching row. -/
def findFile (st : TenantState) (fid : String) : Option FileRow :=
  st.files.find? (fun f => f.file_id == fid && f.deleted_at == none)

/-- The observable outcome of `/uploads/complete`.  `probeFailed` is the
`Error` thrown by `verifyObjectAndReadHeaders`, which escapes the handler and
is answered by the catch-all (see `completeResponse`). -/
inductive CompleteResult
  | missingFileId
  | notFound
  | alreadyActive (fileId : String) (usage : Usage)
  | completed (fileId : String) (sizeBytes : Int) (usage : Usage)
  | probeFailed
  deriving DecidableEq

/-- The `/uploads/complete` handler.  The already-`active` early return reads
the current user row back and mutates nothing.  Otherwise the two UPDATE
statements run as one atomic batch: the file row gets the observed size,
`COALESCE`d content type and `status = 'active'`; the user row gets
`used_bytes + observed`, `uploads_count + 1` and a fresh
`last_activity_at`. -/
def completeUpload (st : TenantState) (body : Option String)
    (probe : ProbeOutcome) (nowMs : Int) : TenantState × CompleteResult :=
  match body with
  | none => (st, .missingFileId)
  | some fid =>
    match findFile st fid with
    | none => (st, .notFound)
    | some file =>
      if file.status = "active" then
        (st, .alreadyActive file.file_id (usagePayload st.user))
      else
        match probe with
        | .failed => (st, .probeFailed)
        | .ok size ct =>
          let files := st.files.map (fun f =>
            if f.file_id = file.file_id then
              { f with
                  size_bytes := some size
                  mime_type := ct <|> f.mime_type
                  status := "active" }
            else f)
          let user := { st.user with
              used_bytes := st.user.used_bytes + size
              uploads_count := st.user.uploads_count + 1
              last_activity_at := some nowMs }
          (({ user := user, files := files } : TenantState),
            .completed file.file_id size (usagePayload user))

/-! ### Deletion (`DELETE /files/:id`) -/

inductive DeleteResult
  | notFound
  | deleted (usage : Usage)
  deriving DecidableEq

/-- The `DELETE /files/:id` handler: same `deleted_at IS NULL` lookup as
completion (it therefore also finds `pending` rows), then one atomic batch:
the file row gets `deleted_at` and `status = 'deleted'`; the user row gets
`used_bytes = CASE WHEN used_bytes > size THEN used_bytes - size ELSE 0 END`.
The background object purge touches no database state. -/
def deleteFile (st : TenantState) (fid : String) (nowMs : Int) :
    TenantState × DeleteResult :=
  match findFile st fid with
  | none => (st, .notFound)
  | some file =>
    let size := file.size_bytes.getD 0
    let files := st.files.map (fun f =>
      if f.file_id = file.file_id then
        { f with deleted_at := some nowMs, status := "deleted" }
      else f)
    let user := { st.user with
        used_bytes :=
          if size < st.user.used_bytes then st.user.used_bytes - size else 0
        last_activity_at := some nowMs }
    (({ user := user, files := files } : TenantState),
      .deleted (usagePayload user))

/-! ### Operation sequences through the exposed entry points -/

/-- One call to an exposed mutating entry point, together with the
environment choices it depends on (request body, per-upload ceiling, clock,
fresh identifiers, probe outcome). -/
inductive Op
  | request (body : Option UploadBody) (maxUploadBytes nowMs : Int)
      (fileId objectKey : String)
  | complete (body : Option String) (probe : ProbeOutcome) (nowMs : Int)
  | delete (fileId : String) (nowMs : Int)
  deriving DecidableEq

/-- State transition of one entry-point call (rejections mutate nothing: every
error return in the source happens before its batch/insert). -/
def step (st : TenantState) : Op → TenantState
  | .request body maxB now fid key =>
    match requestUpload st body maxB now fid key with
    | .ok (st', _) => st'
    | .error _ => st
  | .complete body probe now => (completeUpload st body probe now).1
  | .delete fid now => (deleteFile st fid now).1

def run (st : TenantState) (ops : List Op) : TenantState :=
  ops.foldl step st

/-- Environment assumptions a real execution satisfies at each step:
admission uses a fresh `crypto.randomUUID()` file id; a probe's observed size
is non-negative (`observedSizeBytes` never produces a negative number, see
`observedSizeBytes_nonneg`); a deletion targets a row that is `active` (this
last condition is NOT guaranteed by the source — dropping it is exactly what
the C1/C8 counterexamples exploit). -/
def stepOk (st : TenantState) : Op → Bool
  | .request _ _ _ fid _ => st.files.all (fun f => f.file_id != fid)
  | .complete _ probe _ =>
    match probe with
    | .failed => true
    | .ok n _ => decide (0 ≤ n)
  | .delete fid _ =>
    st.files.all (fun f =>
      !(f.file_id == fid && f.deleted_at == none) || f.status == "active")

def okTrace : TenantState → List Op → Bool
  | _, [] => true
  | st, op :: ops => stepOk st op && okTrace (step st op) ops

/-! ### Accounting view -/

/-- The quota contribution of one row: its recorded size if `active`. -/
def fileActiveBytes (f : FileRow) : Int :=
  if f.status = "active" then f.size_bytes.getD 0 else 0

/-- Sum of `size_bytes` over the tenant's rows with `status = 'active'`. -/
def activeSum (files : List FileRow) : Int :=
  (files.map fileActiveBytes).sum

/-! ### Route dispatch and error reporting (worker `fetch`) -/

/-- The route actually dispatched, in the source's match order. -/
inductive Route
  | login
  | uploadRequest
  | uploadComplete
  | listFiles
  | download (fileId : String)
  | removeFile (fileId : String)
  | notFound
  deriving DecidableEq

/-- Split a character list at every occurrence of `sep`, keeping empty
fields: the semantics of JavaScript `String.prototype.split` with a
single-character separator and no limit. -/
def splitOnChar (sep : Char) : List Char → List (List Char)
  | [] => [[]]
  | c :: rest =>
    if c = sep then [] :: splitOnChar sep rest
    else
      match splitOnChar sep rest with
      | s :: ss => (c :: s) :: ss
      | [] => [[c]]

/-- JavaScript `s.split(sep)` for a one-character separator. -/
def jsSplit (s : String) (sep : Char) : List String :=
  (splitOnChar sep s.data).map String.mk

/-- `url.pathname.match(/^\/files\/([^/]+)\/download$/)`: the whole path is
`/files/<one nonempty slash-free segment>/download`. -/
def downloadMatch (path : String) : Option String :=
  match jsSplit path '/' with
  | ["", "files", fid, "download"] => if fid = "" then none else some fid
  | _ => none

/-- `url.pathname.match(/^\/files\/([^/]+)$/)`. -/
def deleteMatch (path : String) : Option String :=
  match jsSplit path '/' with
  | ["", "files", fid] => if fid = "" then none else some fid
  | _ => none

/-- The worker's route dispatch (the chain of `if (request.method === ... &&
url.pathname ...)` tests, ending in `badRequest("Not found", 404)`). -/
def matchRoute (method path : String) : Route :=
  if method = "POST" ∧ path = "/auth/login" then .login
  else if method = "POST" ∧ path = "/uploads/request" then .uploadRequest
  else if method = "POST" ∧ path = "/uploads/complete" then .uploadComplete
  else if method = "GET" ∧ path = "/files" then .listFiles
  else
    match (if method = "GET" then downloadMatch path else none) with
    | some fid => .download fid
    | none =>
      match (if method = "DELETE" then deleteMatch path else none) with
      | some fid => .removeFile fid
      | none => .notFound

/-- An HTTP answer as the client can classify it: status code and the `error`
field of the JSON body (`none` for success payloads).  The catch-all's opaque
`requestId` is not part of the classification. -/
structure HttpResponse where
  status : Int
  error : Option String
  deriving DecidableEq

/-- The catch-all answer of the worker's `try/catch`:
`json({ error: "Internal server error", requestId }, 500)`. -/
def internalServerError : HttpResponse :=
  { status := 500, error := some "Internal server error" }

/-- How each `/uploads/complete` outcome reaches the caller.  The probe
failure is a plain thrown `Error`, so it escapes to the catch-all and becomes
the generic 500 answer. -/
def completeResponse : CompleteResult → HttpResponse
  | .missingFileId => { status := 400, error := some "fileId is required" }
  | .notFound => { status := 404, error := some "File not found" }
  | .alreadyActive _ _ => { status := 200, error := none }
  | .completed _ _ _ => { status := 200, error := none }
  | .probeFailed => internalServerError

/-- A client-fault answer in the sense of the spec's §7 taxonomy (4xx). -/
def isClientFault (r : HttpResponse) : Bool :=
  decide (400 ≤ r.status ∧ r.status < 500)

/-- The structural part of state consistency, maintained by every modelled
execution: file ids are unique (`crypto.randomUUID()`), a `deleted` status
always comes with `deleted_at` set, statuses range over the three-state
enum. -/
structure InvBase (st : TenantState) : Prop where
  nodup : (st.files.map (·.file_id)).Nodup
  delStatus : ∀ f ∈ st.files, f.status = "deleted" → f.deleted_at ≠ none
  statusRange : ∀ f ∈ st.files,
    f.status = "pending" ∨ f.status = "active" ∨ f.status = "deleted"

/-- Full consistency: additionally the ledger counter matches the active rows
and recorded sizes are non-negative. -/
structure Inv (st : TenantState) : Prop where
  base : InvBase st
  used_eq : st.user.used_bytes = activeSum st.files
  sizeNonneg : ∀ f ∈ st.files, 0 ≤ f.size_bytes.getD 0

/-- The environment facts every real execution satisfies at each step, with
no assumption on what a deletion targets: admission uses a fresh
`crypto.randomUUID()` file id, and a probe's observed size is non-negative
(`observedSizeBytes` never produces a negative number, see
`observedSizeBytes_nonneg`). -/
def stepFresh (st : TenantState) : Op → Bool
  | .request _ _ _ fid _ => st.files.all (fun f => f.file_id != fid)
  | .complete _ probe _ =>
    match probe with
    | .failed => true
    | .ok n _ => decide (0 ≤ n)
  | .delete _ _ => true

def freshTrace : TenantState → List Op → Bool
  | _, [] => true
  | st, op :: ops => stepFresh st op && freshTrace (step st op) ops

/-! ### Per-file status view (for the lifecycle claims) -/

/-- Rank of a lifecycle status in the `pending → active → deleted` order. -/
def statusRank (s : String) : Nat :=
  if s = "pending" then 0 else if s = "active" then 1 else 2

/-- The status of the row with a given file id (if any), regardless of
deletion. -/
def fileStatus (st : TenantState) (fid : String) : Option String :=
  (st.files.find? (fun f => f.file_id == fid)).map (·.status)

def rankO : Option String → Nat
  | none => 0
  | some s => statusRank s

/-- One admissible evolution step of a file's status: the rank never
decreases, `deleted` is terminal, and `active` never falls back to
`pending`. -/
def statusStep (a b : Option String) : Prop :=
  rankO a ≤ rankO b ∧ (a = some "deleted" → b = some "deleted") ∧
    (a = some "active" → b ≠ some "pending")

/-! ### Concrete sample data for witnesses and counterexamples -/

def sampleUser : UserRow :=
  { quota_gb := 1, used_bytes := 0, uploads_count := 0, downloads_count := 0,
    subscription_expires_at := 1000000, last_activity_at := none }

/-- A fresh tenant: empty ledger, no files. -/
def sampleState : TenantState := { user := sampleUser, files := [] }

def sampleBody (n : Int) : UploadBody :=
  { mimeType := some "text/plain", sizeBytes := some n }

/-- Accept A (100 bytes), complete it, accept B (50 bytes, still pending),
then delete B while it is pending. -/
def c1Ops : List Op :=
  [.request (some (sampleBody 100)) 1000000 0 "A" "kA",
   .complete (some "A") (.ok 100 none) 1,
   .request (some (sampleBody 50)) 1000000 2 "B" "kB",
   .delete "B" 3]

/-- A good trace: accept A, complete it, then delete it while active. -/
def c1GoodOps : List Op :=
  [.request (some (sampleBody 100)) 1000000 0 "A" "kA",
   .complete (some "A") (.ok 100 none) 1,
   .delete "A" 2]

/-- A 70-byte upload accepted but not yet completed. -/
def pendingFile : FileRow :=
  { file_id := "f1", object_key := "k1", size_bytes := some 70,
    mime_type := some "text/plain", status := "pending",
    created_at := 0, deleted_at := none }

/-- One pending 70-byte file awaiting completion. -/
def pendingState : TenantState :=
  { user := sampleUser, files := [pendingFile] }

/-! ### Base64 (model of `btoa` / `atob` and the url-safe wrappers of
`src/src/utils/clientCode.ts`).  Bytes are `Nat`s below 256. -/

/-- Big-endian regrouping of 8-bit bytes into 6-bit values, as `btoa`
produces them (one leftover byte yields two sextets, two leftover bytes yield
three; the stripped-padding encoding adds nothing further). -/
def encodeSextets : List Nat → List Nat
  | a :: b :: c :: rest =>
    a / 4 :: ((a % 4) * 16 + b / 16) :: ((b % 16) * 4 + c / 64) :: c % 64 ::
      encodeSextets rest
  | [a, b] => [a / 4, (a % 4) * 16 + b / 16, (b % 16) * 4]
  | [a] => [a / 4, (a % 4) * 16]
  | [] => []

/-- Forgiving base64 bit regrouping: 6-bit values back to bytes, discarding
the 2 or 4 trailing bits of an incomplete final group (as `atob` does). -/
def decodeSextets : List Nat → List Nat
  | a :: b :: c :: d :: rest =>
    (a * 4 + b / 16) :: ((b % 16) * 16 + c / 4) :: ((c % 4) * 64 + d) ::
      decodeSextets rest
  | [a, b, c] => [a * 4 + b / 16, (b % 16) * 16 + c / 4]
  | [a, b] => [a * 4 + b / 16]
  | _ => []

/-- The url-safe alphabet, as produced by `btoa` followed by the `+` → `-`,
`/` → `_` replacements of `base64UrlEncode`. -/
def b64Char (n : Nat) : Char :=
  if n < 26 then Char.ofNat (65 + n)
  else if n < 52 then Char.ofNat (71 + n)
  else if n < 62 then Char.ofNat (n - 4)
  else if n = 62 then '-' else '_'

/-- The standard-alphabet value of a character, as `atob` reads it (`'+'` is
62 and `'/'` is 63; everything else, `'='` included, is invalid). -/
def b64CharValueStd (c : Char) : Option Nat :=
  let n := c.toNat
  if 65 ≤ n ∧ n ≤ 90 then some (n - 65)
  else if 97 ≤ n ∧ n ≤ 122 then some (n - 71)
  else if 48 ≤ n ∧ n ≤ 57 then some (n + 4)
  else if n = 43 then some 62
  else if n = 47 then some 63
  else none

/-- `base64UrlEncode`: `btoa(String.fromCharCode(...data))` with `+`/`/`
swapped for `-`/`_` and the `=` padding stripped — equivalently, the sextets
written directly in the url alphabet with no padding. -/
def base64UrlEncode (bytes : List Nat) : String :=
  String.mk ((encodeSextets bytes).map b64Char)

/-- ASCII whitespace, which forgiving-base64 decoding (`atob`) skips. -/
def isB64Space (c : Char) : Bool :=
  decide (c = ' ' ∨ c = '\t' ∨ c = '\n' ∨ c = '\x0c' ∨ c = '\r')

/-- Remove one or two trailing `=` (the padding `atob` accepts). -/
def stripPad (t : List Char) : List Char :=
  match t.reverse with
  | '=' :: '=' :: rest => rest.reverse
  | '=' :: rest => rest.reverse
  | _ => t

/-- WHATWG forgiving-base64 decode, the semantics of `atob`: strip ASCII
whitespace; strip up to two trailing `=` when the length is a multiple of 4;
fail (`InvalidCharacterError`, modelled as `none`) if the remaining length is
1 mod 4 or any remaining character is outside the standard alphabet; then
regroup bits, discarding trailing bits of an incomplete final group. -/
def atob (cs : List Char) : Option (List Nat) :=
  let t := cs.filter (fun c => ! isB64Space c)
  let t := if t.length % 4 = 0 then stripPad t else t
  if t.length % 4 = 1 then none
  else (t.mapM b64CharValueStd).map decodeSextets

/-- The `-` → `+`, `_` → `/` replacements of `base64UrlDecode`. -/
def b64Normalize (c : Char) : Char :=
  if c = '-' then '+' else if c = '_' then '/' else c

/-- `base64UrlDecode`: swap `-`/`_` back to `+`/`/`, append `=` padding up to
a multiple of 4, and run `atob`. -/
def base64UrlDecode (s : String) : Option (List Nat) :=
  let normalized := s.data.map b64Normalize
  let padded := normalized ++ List.replicate ((4 - normalized.length % 4) % 4) '='
  atob padded

/-! ### SHA-256 and HMAC-SHA-256 (the `crypto.subtle` HMAC used by the token
codec), on byte lists, with 32-bit words as `Nat % 2^32`. -/

def w32 (n : Nat) : Nat := n % 4294967296

def rotr (k n : Nat) : Nat := w32 ((n >>> k) ||| (n <<< (32 - k)))

def bigSigma0 (x : Nat) : Nat := rotr 2 x ^^^ rotr 13 x ^^^ rotr 22 x
def bigSigma1 (x : Nat) : Nat := rotr 6 x ^^^ rotr 11 x ^^^ rotr 25 x
def smallSigma0 (x : Nat) : Nat := rotr 7 x ^^^ rotr 18 x ^^^ (x >>> 3)
def smallSigma1 (x : Nat) : Nat := rotr 17 x ^^^ rotr 19 x ^^^ (x >>> 10)

def shaK : List Nat :=
  [1116352408, 1899447441, 3049323471, 3921009573, 961987163, 1508970993,
   2453635748, 2870763221, 3624381080, 310598401, 607225278, 1426881987,
   1925078388, 2162078206, 2614888103, 3248222580, 3835390401, 4022224774,
   264347078, 604807628, 770255983, 1249150122, 1555081692, 1996064986,
   2554220882, 2821834349, 2952996808, 3210313671, 3336571891, 3584528711,
   113926993, 338241895, 666307205, 773529912, 1294757372, 1396182291,
   1695183700, 1986661051, 2177026350, 2456956037, 2730485921, 2820302411,
   3259730800, 3345764771, 3516065817, 3600352804, 4094571909, 275423344,
   430227734, 506948616, 659060556, 883997877, 958139571, 1322822218,
   1537002063, 1747873779, 1955562222, 2024104815, 2227730452, 2361852424,
   2428436474, 2756734187, 3204031479, 3329325298]

def shaIV : List Nat :=
  [1779033703, 3144134277, 1013904242, 2773480762,
   1359893119, 2600822924, 528734635, 1541459225]

/-- `k` bytes of `n`, big-endian. -/
def beBytes : Nat → Nat → List Nat
  | 0, _ => []
  | k + 1, n => beBytes k (n / 256) ++ [n % 256]

/-- Merkle–Damgård padding: `0x80`, zeros, 64-bit big-endian bit length. -/
def sha256Pad (msg : List Nat) : List Nat :=
  msg ++ [128] ++ List.replicate ((55 + 64 - msg.length % 64) % 64) 0 ++
    beBytes 8 (8 * msg.length)

def bytesToWords : List Nat → List Nat
  | a :: b :: c :: d :: rest =>
    (((a * 256 + b) * 256 + c) * 256 + d) :: bytesToWords rest
  | _ => []

def wordsToBytes : List Nat → List Nat
  | w :: rest =>
    w / 16777216 % 256 :: w / 65536 % 256 :: w / 256 % 256 :: w % 256 ::
      wordsToBytes rest
  | [] => []

/-- Extend the 16 message words by `k` further schedule words. -/
def extendSchedule (w : List Nat) : Nat → List Nat
  | 0 => w
  | k + 1 =>
    extendSchedule
      (w ++ [w32 (w.getD (w.length - 16) 0 + smallSigma0 (w.getD (w.length - 15) 0)
        + w.getD (w.length - 7) 0 + smallSigma1 (w.getD (w.length - 2) 0))]) k

/-- One round of the SHA-256 compression function on state `[a,...,h]`. -/
def shaRound (st : List Nat) (k w : Nat) : List Nat :=
  match st with
  | [a, b, c, d, e, f, g, h] =>
    let s1 := bigSigma1 e
    let ch := (e &&& f) ^^^ ((e ^^^ 4294967295) &&& g)
    let t1 := w32 (h + s1 + ch + k + w)
    let s0 := bigSigma0 a
    let mj := (a &&& b) ^^^ (a &&& c) ^^^ (b &&& c)
    let t2 := w32 (s0 + mj)
    [w32 (t1 + t2), a, b, c, w32 (d + t1), e, f, g]
  | other => other

def shaCompress (hs chunk : List Nat) : List Nat :=
  let ws := extendSchedule (bytesToWords chunk) 48
  let fin := (shaK.zip ws).foldl (fun st kw => shaRound st kw.1 kw.2) hs
  (hs.zip fin).map (fun xy => w32 (xy.1 + xy.2))

/-- 64-byte chunks (fuelled so that it unfolds by structural recursion). -/
def chunksAux : Nat → List Nat → List (List Nat)
  | 0, _ => []
  | _, [] => []
  | fuel + 1, l => l.take 64 :: chunksAux fuel (l.drop 64)

def sha256 (msg : List Nat) : List Nat :=
  let p := sha256Pad msg
  wordsToBytes ((chunksAux p.length p).foldl shaCompress shaIV)

/-- HMAC-SHA-256 over byte lists (RFC 2104, 64-byte block). -/
def hmacSha256 (key msg : List Nat) : List Nat :=
  let k0 := if 64 < key.length then sha256 key else key
  let kb := k0 ++ List.replicate (64 - k0.length) 0
  sha256 (kb.map (fun b => b ^^^ 92) ++ sha256 (kb.map (fun b => b ^^^ 54) ++ msg))

/-! ### UTF-8 (`TextEncoder` / `TextDecoder`) -/

def utf8EncodeChar (c : Char) : List Nat :=
  if c.toNat < 128 then [c.toNat]
  else if c.toNat < 2048 then [192 + c.toNat / 64, 128 + c.toNat % 64]
  else if c.toNat < 65536 then
    [224 + c.toNat / 4096, 128 + c.toNat / 64 % 64, 128 + c.toNat % 64]
  else
    [240 + c.toNat / 262144, 128 + c.toNat / 4096 % 64, 128 + c.toNat / 64 % 64,
     128 + c.toNat % 64]

def utf8EncodeList (cs : List Char) : List Nat :=
  cs.foldr (fun c acc => utf8EncodeChar c ++ acc) []

/-- `new TextEncoder().encode(value)`. -/
def utf8Encode (s : String) : List Nat :=
  utf8EncodeList s.data

/-- Read one UTF-8 scalar from the front of a byte list. -/
def utf8DecodeChar : List Nat → Option (Char × List Nat)
  | [] => none
  | b :: rest =>
    if b < 128 then some (Char.ofNat b, rest)
    else if b < 192 then none
    else if b < 224 then
      match rest with
      | b1 :: rest1 =>
        if 128 ≤ b1 ∧ b1 < 192 then
          some (Char.ofNat ((b - 192) * 64 + (b1 - 128)), rest1)
        else none
      | _ => none
    else if b < 240 then
      match rest with
      | b1 :: b2 :: rest1 =>
        if (128 ≤ b1 ∧ b1 < 192) ∧ (128 ≤ b2 ∧ b2 < 192) then
          some (Char.ofNat ((b - 224) * 4096 + (b1 - 128) * 64 + (b2 - 128)), rest1)
        else none
      | _ => none
    else
      match rest with
      | b1 :: b2 :: b3 :: rest1 =>
        if (128 ≤ b1 ∧ b1 < 192) ∧ (128 ≤ b2 ∧ b2 < 192) ∧ (128 ≤ b3 ∧ b3 < 192) then
          some (Char.ofNat
            ((b - 240) * 262144 + (b1 - 128) * 4096 + (b2 - 128) * 64 + (b3 - 128)),
            rest1)
        else none
      | _ => none

def utf8DecodeAux : Nat → List Nat → Option (List Char)
  | _, [] => some []
  | 0, _ :: _ => none
  | fuel + 1, bs =>
    match utf8DecodeChar bs with
    | none => none
    | some (c, rest) => (utf8DecodeAux fuel rest).map (fun cs => c :: cs)

/-- `new TextDecoder().decode(bytes)` on well-formed input.  (The real
decoder substitutes U+FFFD on malformed input instead of failing; malformed
input is never produced by the codec's own round trip, and a `none` here only
feeds the `parseError` path.) -/
def utf8Decode (bs : List Nat) : Option (List Char) :=
  utf8DecodeAux bs.length bs

/-! ### JSON serialization of the session payload
(`JSON.stringify` / `JSON.parse` on the `SessionPayload` shape) -/

/-- `interface SessionPayload` of `src/src/utils/clientCode.ts`; `iat` and
`exp` are integral JavaScript numbers. -/
structure SessionPayload where
  clientCode : String
  iat : Int
  exp : Int
  deriving DecidableEq

def hexDigitChar (n : Nat) : Char :=
  if n < 10 then Char.ofNat (48 + n) else Char.ofNat (87 + n)

/-- How `JSON.stringify` writes one character of a string: `"` and `\`
escaped, the five short control escapes, `\u00xx` for the other control
characters, every other scalar written as itself. -/
def jsonEscapeChar (c : Char) : List Char :=
  if c = '"' then ['\\', '"']
  else if c = '\\' then ['\\', '\\']
  else if c = '\x08' then ['\\', 'b']
  else if c = '\t' then ['\\', 't']
  else if c = '\n' then ['\\', 'n']
  else if c = '\x0c' then ['\\', 'f']
  else if c = '\r' then ['\\', 'r']
  else if c.toNat < 32 then
    ['\\', 'u', '0', '0', hexDigitChar (c.toNat / 16), hexDigitChar (c.toNat % 16)]
  else [c]

def jsonEscape (cs : List Char) : List Char :=
  cs.foldr (fun c acc => jsonEscapeChar c ++ acc) []

/-- Decimal digits of `n`, little-endian, fuelled for structural recursion. -/
def natDigitsAux : Nat → Nat → List Nat
  | 0, _ => []
  | fuel + 1, n => if n = 0 then [] else n % 10 :: natDigitsAux fuel (n / 10)

def natToChars (n : Nat) : List Char :=
  if n = 0 then ['0']
  else (natDigitsAux (n + 1) n).reverse.map (fun d => Char.ofNat (48 + d))

/-- How `JSON.stringify` writes an integral number. -/
def intToChars (i : Int) : List Char :=
  if i < 0 then '-' :: natToChars i.natAbs else natToChars i.natAbs

/-- `JSON.stringify(payload)` for a `SessionPayload` object: keys in
insertion order `clientCode`, `iat`, `exp` (the order the login handler
constructs the object literal in). -/
def jsonStringifyPayload (p : SessionPayload) : List Char :=
  ("\x7b\"clientCode\":\"").data ++ jsonEscape p.clientCode.data ++
    ("\",\"iat\":").data ++ intToChars p.iat ++
    (",\"exp\":").data ++ intToChars p.exp ++ ['\x7d']

/-- Consume an expected literal from the front of the input. -/
def eatLit : List Char → List Char → Option (List Char)
  | [], input => some input
  | _ :: _, [] => none
  | c :: lit, x :: input => if x = c then eatLit lit input else none

def hexVal (c : Char) : Option Nat :=
  let n := c.toNat
  if 48 ≤ n ∧ n ≤ 57 then some (n - 48)
  else if 97 ≤ n ∧ n ≤ 102 then some (n - 87)
  else if 65 ≤ n ∧ n ≤ 70 then some (n - 55)
  else none

/-- Resolve one escape sequence of a JSON string literal (the character after
the backslash, and the input following it), as `JSON.parse` does.  Surrogate
`\uXXXX` escapes are outside the modelled scope (the serializer never emits
them for valid scalars). -/
def jsonUnescape (e : Char) (rest1 : List Char) : Option (Char × List Char) :=
  if e = '"' then some ('"', rest1)
  else if e = '\\' then some ('\\', rest1)
  else if e = '/' then some ('/', rest1)
  else if e = 'b' then some ('\x08', rest1)
  else if e = 'f' then some ('\x0c', rest1)
  else if e = 'n' then some ('\n', rest1)
  else if e = 'r' then some ('\r', rest1)
  else if e = 't' then some ('\t', rest1)
  else if e = 'u' then
    match rest1 with
    | h1 :: h2 :: h3 :: h4 :: rest2 =>
      match hexVal h1, hexVal h2, hexVal h3, hexVal h4 with
      | some v1, some v2, some v3, some v4 =>
        if 55296 ≤ ((v1 * 16 + v2) * 16 + v3) * 16 + v4 ∧
            ((v1 * 16 + v2) * 16 + v3) * 16 + v4 < 57344 then none
        else some (Char.ofNat (((v1 * 16 + v2) * 16 + v3) * 16 + v4), rest2)
      | _, _, _, _ => none
    | _ => none
  else none

/-- Parse the body of a JSON string literal (the opening quote already
consumed) up to its closing quote, decoding escapes as `JSON.parse` does. -/
def parseJsonStringAux : Nat → List Char → Option (List Char × List Char)
  | 0, _ => none
  | _ + 1, [] => none
  | fuel + 1, c :: rest =>
    if c = '"' then some ([], rest)
    else if c = '\\' then
      match rest with
      | [] => none
      | e :: rest1 =>
        match jsonUnescape e rest1 with
        | none => none
        | some (ec, r2) =>
          (parseJsonStringAux fuel r2).map (fun pr => (ec :: pr.1, pr.2))
    else if c.toNat < 32 then none
    else (parseJsonStringAux fuel rest).map (fun pr => (c :: pr.1, pr.2))

def parseNatChars (cs : List Char) : Option (Nat × List Char) :=
  let ds := cs.takeWhile (fun c => c.isDigit)
  let rest := cs.dropWhile (fun c => c.isDigit)
  if ds = [] then none
  else some (ds.foldl (fun acc c => acc * 10 + (c.toNat - 48)) 0, rest)

def parseIntChars (cs : List Char) : Option (Int × List Char) :=
  match cs with
  | c :: rest2 =>
    if c = '-' then (parseNatChars rest2).map (fun pr => (-(pr.1 : Int), pr.2))
    else (parseNatChars cs).map (fun pr => ((pr.1 : Int), pr.2))
  | [] => (parseNatChars cs).map (fun pr => ((pr.1 : Int), pr.2))

/-- `JSON.parse` restricted to the canonical serialized shape of a
`SessionPayload` (which is the only shape the codec's own tokens carry); any
other input is a parse failure, which the token verifier surfaces as a thrown
exception. -/
def parsePayloadChars (cs : List Char) : Option SessionPayload :=
  match eatLit ("\x7b\"clientCode\":\"").data cs with
  | none => none
  | some r1 =>
    match parseJsonStringAux r1.length r1 with
    | none => none
    | some (cc, r2) =>
      match eatLit (",\"iat\":").data r2 with
      | none => none
      | some r3 =>
        match parseIntChars r3 with
        | none => none
        | some (iat, r4) =>
          match eatLit (",\"exp\":").data r4 with
          | none => none
          | some r5 =>
            match parseIntChars r5 with
            | none => none
            | some (ex, r6) =>
              match r6 with
              | ['\x7d'] => some { clientCode := String.mk cc, iat := iat, exp := ex }
              | _ => none

/-! ### The session-token codec (`signSessionToken` / `verifySessionToken`) -/

/-- `` `v1.${payloadPart}` ``. -/
def signingInputChars (payloadPart : List Char) : List Char :=
  'v' :: '1' :: '.' :: payloadPart

/-- `signSessionToken(payload, secret)`: base64url of the UTF-8 JSON payload,
prefixed by the version tag, signed with HMAC-SHA-256 over the UTF-8 bytes of
`"v1.<payloadPart>"` keyed by the UTF-8 bytes of `secret`. -/
def signSessionToken (payload : SessionPayload) (secret : String) : String :=
  let payloadPart := (base64UrlEncode (utf8EncodeList (jsonStringifyPayload payload))).data
  let si := signingInputChars payloadPart
  let sig := hmacSha256 (utf8Encode secret) (utf8EncodeList si)
  String.mk (si ++ '.' :: (base64UrlEncode sig).data)

/-- The two ways `verifySessionToken` can throw instead of returning:
`atob` on a malformed base64 segment, and `JSON.parse` on a payload that is
not (the modelled shape of) valid JSON. -/
inductive TokenThrow
  | decodeError
  | parseError
  deriving DecidableEq

/-- `verifySessionToken(token, secret)` at current time `nowSec` (seconds):
destructure the first three `.`-separated parts (later parts are ignored by
the array destructuring), check the version tag and non-emptiness, recompute
the HMAC and compare it against the decoded signature, then parse the payload
and require `payload.exp > now`.  `.ok none` is the `null` (invalid) return;
`.error` is a thrown exception (caught by the worker's catch-all).
A missing part and an empty part are conflated (both are falsy and rejected
by the same test). -/
def verifySessionToken (token secret : String) (nowSec : Int) :
    Except TokenThrow (Option SessionPayload) :=
  let parts := jsSplit token '.'
  let version := (parts.get? 0).getD ""
  let payloadPart := (parts.get? 1).getD ""
  let signaturePart := (parts.get? 2).getD ""
  if version ≠ "v1" ∨ payloadPart = "" ∨ signaturePart = "" then .ok none
  else
    match base64UrlDecode signaturePart with
    | none => .error .decodeError
    | some sigBytes =>
      let mac := hmacSha256 (utf8Encode secret)
        (utf8EncodeList (signingInputChars payloadPart.data))
      if sigBytes ≠ mac then .ok none
      else
        match base64UrlDecode payloadPart with
        | none => .error .decodeError
        | some payloadBytes =>
          match utf8Decode payloadBytes with
          | none => .error .parseError
          | some chars =>
            match parsePayloadChars chars with
            | none => .error .parseError
            | some payload => .ok (if nowSec < payload.exp then some payload else none)

/-- The body of `verifySessionToken` after the destructuring assignment, as a
function of the three extracted parts: definitionally equal to
`verifySessionToken` (see `verifySessionToken_eq_parts`). -/
def verifyParts (version payloadPart signaturePart secret : String) (nowSec : Int) :
    Except TokenThrow (Option SessionPayload) :=
  if version ≠ "v1" ∨ payloadPart = "" ∨ signaturePart = "" then .ok none
  else
    match base64UrlDecode signaturePart with
    | none => .error .decodeError
    | some sigBytes =>
      let mac := hmacSha256 (utf8Encode secret)
        (utf8EncodeList (signingInputChars payloadPart.data))
      if sigBytes ≠ mac then .ok none
      else
        match base64UrlDecode payloadPart with
        | none => .error .decodeError
        | some payloadBytes =>
          match utf8Decode payloadBytes with
          | none => .error .parseError
          | some chars =>
            match parsePayloadChars chars with
            | none => .error .parseError
            | some payload => .ok (if nowSec < payload.exp then some payload else none)

/-! ### Concrete token data for the token-claim counterexamples -/

def cePayload : SessionPayload :=
  { clientCode := "3912607696116679", iat := 100, exp := 1000 }

def ceSecret : String := "topsecret"

def ceToken : String := signSessionToken cePayload ceSecret

/-- The url-alphabet character whose 6-bit value is one more than `c`'s:
always a different character, and — when `c` closes an unpadded base64url
segment whose byte length is 2 mod 3, so that `c`'s two low bits are
discarded by decoding — one that decodes to the very same bytes. -/
def bumpB64Char (c : Char) : Char :=
  b64Char (((b64CharValueStd (b64Normalize c)).getD 0) + 1)

/-- Replace the final character of a string by `bumpB64Char` of itself. -/
def tamperLastChar (s : String) : String :=
  String.mk (s.data.dropLast ++ [bumpB64Char (s.data.getLastD ' ')])

end Vault

deriving instance DecidableEq for Except

namespace Vault

/-! ## Helper lemmas: ledger -/

theorem observedSizeBytes_nonneg (h : Option String) (n : Int)
    (hn : observedSizeBytes h = some n) : 0 ≤ n := by
  unfold observedSizeBytes jsStringToNumber at hn
  cases h with
  | none => simp at hn; omega
  | some s =>
    by_cases hs : s = ""
    · simp [hs] at hn; omega
    · simp only [hs, if_false] at hn
      by_cases ht : s.trim = ""
      · simp [ht] at hn; omega
      · simp only [ht, if_false] at hn
        cases hm : s.trim.toNat? with
        | none => rw [hm] at hn; simp at hn
        | some k => rw [hm] at hn; simp at hn; omega

theorem activeSum_cons (f : FileRow) (l : List FileRow) :
    activeSum (f :: l) = fileActiveBytes f + activeSum l := by
  simp [activeSum]

theorem activeSum_append (l1 l2 : List FileRow) :
    activeSum (l1 ++ l2) = activeSum l1 + activeSum l2 := by
  simp [activeSum]

theorem fileActiveBytes_nonneg (f : FileRow) (h : 0 ≤ f.size_bytes.getD 0) :
    0 ≤ fileActiveBytes f := by
  unfold fileActiveBytes
  split <;> omega

theorem findRow_eq (l : List FileRow) (fid : String) (f : FileRow)
    (h : l.find? (fun g => g.file_id == fid && g.deleted_at == none) = some f) :
    f ∈ l ∧ f.file_id = fid ∧ f.deleted_at = none := by
  have h1 := List.find?_some h
  simp only [Bool.and_eq_true, beq_iff_eq] at h1
  exact ⟨List.mem_of_find?_eq_some h, h1.1, h1.2⟩

theorem find?_update_found (l : List FileRow) (fid : String) (f : FileRow)
    (u : FileRow → FileRow)
    (hid : ∀ g, (u g).file_id = g.file_id)
    (hdel : ∀ g, (u g).deleted_at = g.deleted_at)
    (hfind : l.find? (fun g => g.file_id == fid && g.deleted_at == none) = some f) :
    (l.map (fun g => if g.file_id = f.file_id then u g else g)).find?
      (fun g => g.file_id == fid && g.deleted_at == none) = some (u f) := by
  induction l with
  | nil => simp at hfind
  | cons a t ih =>
    by_cases hp : (a.file_id == fid && a.deleted_at == none) = true
    · simp only [List.find?_cons, hp] at hfind
      injection hfind with hfa
      subst hfa
      simp only [List.map_cons, if_pos rfl, List.find?_cons]
      have hp2 : ((u a).file_id == fid && (u a).deleted_at == none) = true := by
        simp only [Bool.and_eq_true, beq_iff_eq] at hp ⊢
        rw [hid, hdel]; exact hp
      simp [hp2]
    · rw [Bool.not_eq_true] at hp
      simp only [List.find?_cons, hp] at hfind
      have hf3 := findRow_eq t fid f hfind
      simp only [List.map_cons, List.find?_cons]
      have hp2 : ((if a.file_id = f.file_id then u a else a).file_id == fid &&
          (if a.file_id = f.file_id then u a else a).deleted_at == none) = false := by
        by_cases hida : a.file_id = f.file_id
        · rw [if_pos hida, hid a, hdel a]; exact hp
        · rw [if_neg hida]; exact hp
      rw [hp2]
      exact ih hfind

theorem find?_id_of_nodup (l : List FileRow) (f : FileRow)
    (hnd : (l.map (·.file_id)).Nodup) (hmem : f ∈ l) :
    l.find? (fun g => g.file_id == f.file_id) = some f := by
  induction l with
  | nil => cases hmem
  | cons a t ih =>
    simp only [List.map_cons, List.nodup_cons] at hnd
    rcases List.mem_cons.1 hmem with hfa | hmt
    · subst hfa
      simp [List.find?_cons]
    · have hne : (a.file_id == f.file_id) = false := by
        simp only [beq_eq_false_iff_ne, ne_eq]
        intro hcc
        exact hnd.1 (hcc ▸ List.mem_map_of_mem (·.file_id) hmt)
      simp only [List.find?_cons, hne]
      exact ih hnd.2 hmt

theorem mem_id_unique (l : List FileRow) (r f : FileRow)
    (hnd : (l.map (·.file_id)).Nodup) (hr : r ∈ l) (hf : f ∈ l)
    (hid : r.file_id = f.file_id) : r = f := by
  have h1 := find?_id_of_nodup l r hnd hr
  have h2 := find?_id_of_nodup l f hnd hf
  rw [← hid] at h2
  rw [h1] at h2
  injection h2

theorem ids_map_of_preserve (l : List FileRow) (v : FileRow → FileRow)
    (hid : ∀ g, (v g).file_id = g.file_id) :
    (l.map v).map (·.file_id) = l.map (·.file_id) := by
  rw [List.map_map]
  exact List.map_congr_left (fun a _ => hid a)

theorem activeSum_update (l : List FileRow) (f : FileRow) (u : FileRow → FileRow)
    (hnd : (l.map (·.file_id)).Nodup) (hmem : f ∈ l) :
    activeSum (l.map (fun g => if g.file_id = f.file_id then u g else g))
      = activeSum l - fileActiveBytes f + fileActiveBytes (u f) := by
  induction l with
  | nil => cases hmem
  | cons a t ih =>
    simp only [List.map_cons, List.nodup_cons] at hnd
    rcases List.mem_cons.1 hmem with hfa | hmt
    · subst hfa
      simp only [List.map_cons, activeSum_cons, eq_self_iff_true, if_true]
      have ht : t.map (fun g => if g.file_id = f.file_id then u g else g) = t := by
        have hcg : ∀ g ∈ t,
            (if g.file_id = f.file_id then u g else g) = id g := by
          intro g hg
          have hgn : g.file_id ≠ f.file_id := by
            intro hcc
            exact hnd.1 (hcc ▸ List.mem_map_of_mem (·.file_id) hg)
          simp [hgn]
        rw [List.map_congr_left hcg, List.map_id]
      rw [ht]; omega
    · have hne : a.file_id ≠ f.file_id := by
        intro hcc
        exact hnd.1 (hcc ▸ List.mem_map_of_mem (·.file_id) hmt)
      simp only [List.map_cons, if_neg hne, activeSum_cons, ih hnd.2 hmt]
      ring

/-! ## State-shape lemmas for the three mutating entry points -/

theorem step_request_cases (st : TenantState) (body : Option UploadBody)
    (maxB now : Int) (fid key : String) :
    step st (.request body maxB now fid key) = st ∨
    ∃ mt n, body = some { mimeType := some mt, sizeBytes := some n } ∧ 0 < n ∧
      step st (.request body maxB now fid key) =
        { st with files := st.files ++
          [{ file_id := fid, object_key := key, size_bytes := some n,
             mime_type := some mt, status := "pending", created_at := now,
             deleted_at := none }] } := by
  unfold step requestUpload
  rcases body with _ | ⟨mt?, n?⟩
  · left; rfl
  · rcases mt? with _ | mt
    · left; rfl
    · rcases n? with _ | n
      · left; rfl
      · by_cases h1 : mt = ""
        · left; simp [h1]
        · by_cases h2 : n ≤ 0
          · left; simp [h1, h2]
          · by_cases h3 : maxB < n
            · left; simp [h1, h2, h3]
            · by_cases h4 : isSubscriptionActive now st.user.subscription_expires_at = true
              · by_cases h5 : st.user.quota_gb * GB < st.user.used_bytes + n
                · left; simp [h1, h2, h3, h4, h5]
                · right
                  exact ⟨mt, n, rfl, by omega, by simp [h1, h2, h3, h4, h5]⟩
              · left; simp [h1, h2, h3, h4]

theorem completeUpload_state_cases (st : TenantState) (body : Option String)
    (probe : ProbeOutcome) (now : Int) :
    (completeUpload st body probe now).1 = st ∨
    ∃ fid f n ct, body = some fid ∧ findFile st fid = some f ∧
      f.status ≠ "active" ∧ probe = .ok n ct ∧
      (completeUpload st body probe now).1 =
        { user := { st.user with
            used_bytes := st.user.used_bytes + n
            uploads_count := st.user.uploads_count + 1
            last_activity_at := some now }
          files := st.files.map (fun g => if g.file_id = f.file_id then
            { g with size_bytes := some n, mime_type := ct <|> g.mime_type,
                     status := "active" } else g) } := by
  unfold completeUpload
  rcases body with _ | fid
  · left; rfl
  · rcases hf : findFile st fid with _ | f
    · left; simp [hf]
    · by_cases ha : f.status = "active"
      · left; simp [hf, ha]
      · cases probe with
        | failed => left; simp [hf, ha]
        | ok n ct =>
          right
          exact ⟨fid, f, n, ct, rfl, hf, ha, rfl, by simp [hf, ha]⟩

theorem deleteFile_state_cases (st : TenantState) (fid : String) (now : Int) :
    (deleteFile st fid now).1 = st ∨
    ∃ f, findFile st fid = some f ∧
      (deleteFile st fid now).1 =
        { user := { st.user with
            used_bytes :=
              if f.size_bytes.getD 0 < st.user.used_bytes then
                st.user.used_bytes - f.size_bytes.getD 0
              else 0
            last_activity_at := some now }
          files := st.files.map (fun g => if g.file_id = f.file_id then
            { g with deleted_at := some now, status := "deleted" } else g) } := by
  unfold deleteFile
  rcases hf : findFile st fid with _ | f
  · left; simp [hf]
  · right; refine ⟨f, ?_, ?_⟩ <;> simp [hf]

/-! ## Invariant preservation -/

theorem stepOk_fresh (st : TenantState) (op : Op) (h : stepOk st op = true) :
    stepFresh st op = true := by
  cases op <;> simp_all [stepOk, stepFresh]

theorem invBase_step (st : TenantState) (op : Op) (h : InvBase st)
    (hf : stepFresh st op = true) : InvBase (step st op) := by
  cases op with
  | request body maxB now fid key =>
    rcases step_request_cases st body maxB now fid key with heq | ⟨mt, n, hbody, hn, heq⟩
    · rw [heq]; exact h
    · rw [heq]
      simp only [stepFresh, List.all_eq_true] at hf
      refine ⟨?_, ?_, ?_⟩
      · simp only [List.map_append, List.map_cons, List.map_nil]
        rw [List.nodup_append]
        refine ⟨h.nodup, List.nodup_singleton _, ?_⟩
        intro x hx hx2
        simp only [List.mem_map] at hx
        simp only [List.mem_cons, List.not_mem_nil, or_false] at hx2
        rcases hx with ⟨g, hg, rfl⟩
        have h2 := hf g hg
        rw [bne_iff_ne] at h2
        exact h2 hx2
      · intro g hg hst
        rcases List.mem_append.1 hg with hg1 | hg2
        · exact h.delStatus g hg1 hst
        · simp only [List.mem_cons, List.not_mem_nil, or_false] at hg2
          subst hg2
          exact absurd hst (by decide : ¬ ("pending" : String) = "deleted")
      · intro g hg
        rcases List.mem_append.1 hg with hg1 | hg2
        · exact h.statusRange g hg1
        · simp only [List.mem_cons, List.not_mem_nil, or_false] at hg2
          subst hg2
          left; rfl
  | complete body probe now =>
    rcases completeUpload_state_cases st body probe now with heq |
      ⟨fid, f, n, ct, hb, hfind, hna, hp, heq⟩
    · simp only [step]; rw [heq]; exact h
    · simp only [step]; rw [heq]
      refine ⟨?_, ?_, ?_⟩
      · rw [ids_map_of_preserve]
        · exact h.nodup
        · intro g
          by_cases hg : g.file_id = f.file_id
          · rw [if_pos hg]
          · rw [if_neg hg]
      · intro g' hg' hst
        simp only [List.mem_map] at hg'
        rcases hg' with ⟨g, hg, rfl⟩
        by_cases hgid : g.file_id = f.file_id
        · simp only [if_pos hgid] at hst ⊢
          exact absurd hst (by decide : ¬ ("active" : String) = "deleted")
        · simp only [if_neg hgid] at hst ⊢
          exact h.delStatus g hg hst
      · intro g' hg'
        simp only [List.mem_map] at hg'
        rcases hg' with ⟨g, hg, rfl⟩
        by_cases hgid : g.file_id = f.file_id
        · simp only [if_pos hgid]
          simp
        · simp only [if_neg hgid]
          exact h.statusRange g hg
  | delete fid now =>
    rcases deleteFile_state_cases st fid now with heq | ⟨f, hfind, heq⟩
    · simp only [step]; rw [heq]; exact h
    · simp only [step]; rw [heq]
      refine ⟨?_, ?_, ?_⟩
      · rw [ids_map_of_preserve]
        · exact h.nodup
        · intro g
          by_cases hg : g.file_id = f.file_id
          · rw [if_pos hg]
          · rw [if_neg hg]
      · intro g' hg' hst
        simp only [List.mem_map] at hg'
        rcases hg' with ⟨g, hg, rfl⟩
        by_cases hgid : g.file_id = f.file_id
        · simp only [if_pos hgid]
          simp
        · simp only [if_neg hgid] at hst ⊢
          exact h.delStatus g hg hst
      · intro g' hg'
        simp only [List.mem_map] at hg'
        rcases hg' with ⟨g, hg, rfl⟩
        by_cases hgid : g.file_id = f.file_id
        · simp only [if_pos hgid]
          simp
        · simp only [if_neg hgid]
          exact h.statusRange g hg

theorem inv_step (st : TenantState) (op : Op) (h : Inv st)
    (hok : stepOk st op = true) : Inv (step st op) := by
  have hbase := invBase_step st op h.base (stepOk_fresh st op hok)
  cases op with
  | request body maxB now fid key =>
    rcases step_request_cases st body maxB now fid key with heq | ⟨mt, n, hbody, hn, heq⟩
    · rw [heq]; exact h
    · rw [heq] at hbase ⊢
      refine ⟨hbase, ?_, ?_⟩
      · show st.user.used_bytes = activeSum (st.files ++ [_])
        rw [activeSum_append, activeSum_cons]
        have hz : fileActiveBytes
            { file_id := fid, object_key := key, size_bytes := some n,
              mime_type := some mt, status := "pending", created_at := now,
              deleted_at := none } = 0 := by
          unfold fileActiveBytes
          rw [if_neg (by decide : ¬ ("pending" : String) = "active")]
        rw [hz]
        have h0 : activeSum ([] : List FileRow) = 0 := rfl
        rw [h0]
        have h1 := h.used_eq
        omega
      · intro g hg
        rcases List.mem_append.1 hg with hg1 | hg2
        · exact h.sizeNonneg g hg1
        · simp only [List.mem_cons, List.not_mem_nil, or_false] at hg2
          subst hg2
          simp only [Option.getD_some]
          omega
  | complete body probe now =>
    rcases completeUpload_state_cases st body probe now with heq |
      ⟨fid, f, n, ct, hb, hfind, hna, hp, heq⟩
    · simp only [step]; rw [heq]; exact h
    · have hn : 0 ≤ n := by
        subst hb hp
        simp only [stepOk, decide_eq_true_eq] at hok
        exact hok
      have hf3 := findRow_eq st.files fid f hfind
      simp only [step] at hbase ⊢
      rw [heq] at hbase ⊢
      refine ⟨hbase, ?_, ?_⟩
      · show st.user.used_bytes + n = activeSum (st.files.map _)
        rw [activeSum_update st.files f _ h.base.nodup hf3.1]
        have hz : fileActiveBytes f = 0 := by
          unfold fileActiveBytes
          rw [if_neg hna]
        have ha : fileActiveBytes
            { f with size_bytes := some n, mime_type := ct <|> f.mime_type,
                     status := "active" } = n := by
          unfold fileActiveBytes
          simp
        rw [hz, ha, ← h.used_eq]
        ring
      · intro g' hg'
        simp only [List.mem_map] at hg'
        rcases hg' with ⟨g, hg, rfl⟩
        by_cases hgid : g.file_id = f.file_id
        · simp only [if_pos hgid, Option.getD_some]
          exact hn
        · simp only [if_neg hgid]
          exact h.sizeNonneg g hg
  | delete fid now =>
    rcases deleteFile_state_cases st fid now with heq | ⟨f, hfind, heq⟩
    · simp only [step]; rw [heq]; exact h
    · have hf3 := findRow_eq st.files fid f hfind
      have hact : f.status = "active" := by
        simp only [stepOk, List.all_eq_true] at hok
        have h2 := hok f hf3.1
        simp only [hf3.2.1, hf3.2.2] at h2
        simpa using h2
      simp only [step] at hbase ⊢
      rw [heq] at hbase ⊢
      refine ⟨hbase, ?_, ?_⟩
      · show (if f.size_bytes.getD 0 < st.user.used_bytes then
            st.user.used_bytes - f.size_bytes.getD 0 else 0)
            = activeSum (st.files.map _)
        rw [activeSum_update st.files f _ h.base.nodup hf3.1]
        have hz : fileActiveBytes
            { f with deleted_at := some now, status := "deleted" } = 0 := by
          unfold fileActiveBytes
          rw [if_neg (by decide : ¬ ("deleted" : String) = "active")]
        have ha : fileActiveBytes f = f.size_bytes.getD 0 := by
          unfold fileActiveBytes
          rw [if_pos hact]
        have hle : fileActiveBytes f ≤ activeSum st.files := by
          apply List.single_le_sum
          · intro x hx
            simp only [List.mem_map] at hx
            rcases hx with ⟨g, hg, rfl⟩
            exact fileActiveBytes_nonneg g (h.sizeNonneg g hg)
          · exact List.mem_map_of_mem fileActiveBytes hf3.1
        rw [hz, ha] at *
        rw [← h.used_eq] at *
        split <;> omega
      · intro g' hg'
        simp only [List.mem_map] at hg'
        rcases hg' with ⟨g, hg, rfl⟩
        by_cases hgid : g.file_id = f.file_id
        · simp only [if_pos hgid]
          exact h.sizeNonneg g hg
        · simp only [if_neg hgid]
          exact h.sizeNonneg g hg

theorem invBase_run (st : TenantState) (ops : List Op) (h : InvBase st)
    (hok : freshTrace st ops = true) : InvBase (run st ops) := by
  induction ops generalizing st with
  | nil => exact h
  | cons op ops ih =>
    simp only [freshTrace, Bool.and_eq_true] at hok
    simp only [run, List.foldl_cons]
    exact ih (step st op) (invBase_step st op h hok.1) hok.2

theorem inv_run (st : TenantState) (ops : List Op) (h : Inv st)
    (hok : okTrace st ops = true) : Inv (run st ops) := by
  induction ops generalizing st with
  | nil => exact h
  | cons op ops ih =>
    simp only [okTrace, Bool.and_eq_true] at hok
    simp only [run, List.foldl_cons]
    exact ih (step st op) (inv_step st op h hok.1) hok.2

/-! ## Claim C1 -/

/-- Claim C1 (amended): for every consistent tenant state and every sequence
of accept/complete/delete operations through the exposed entry points in which
admission file ids are fresh, observed sizes are the coercion of real
`content-length` headers (hence non-negative), and every deletion targets a
file that is `active` at that moment, the tenant's `used_bytes` afterwards
equals the sum of `size_bytes` over its `active` rows.  (The claim as stated,
without the restriction on deletions, is refuted by
`C1_counterexample`: deleting a still-`pending` file subtracts its declared
size even though that size was never added.) -/
theorem C1_reconciliation_invariant (st : TenantState) (ops : List Op)
    (hinv : Inv st) (hok : okTrace st ops = true) :
    (run st ops).user.used_bytes = activeSum (run st ops).files :=
  (inv_run st ops hinv hok).used_eq

theorem C1_reconciliation_invariant_witness :
    okTrace sampleState c1GoodOps = true ∧
    (run sampleState c1GoodOps).user.used_bytes
      = activeSum (run sampleState c1GoodOps).files :=
  ⟨by decide,
    C1_reconciliation_invariant sampleState c1GoodOps
      ⟨⟨by decide, by decide, by decide⟩, by decide, by decide⟩ (by decide)⟩

/-- Claim C1 as frozen is false: after accepting file A (100 bytes),
completing it, accepting file B (50 bytes, declared provisionally, still
`pending`), and deleting B through `DELETE /files/:id` (whose lookup accepts
any row with `deleted_at IS NULL`, `pending` included), `used_bytes` is 50
but the sum over `active` rows is 100. -/
theorem C1_counterexample :
    (run sampleState c1Ops).user.used_bytes = 50 ∧
    activeSum (run sampleState c1Ops).files = 100 ∧
    (run sampleState c1Ops).user.used_bytes
      ≠ activeSum (run sampleState c1Ops).files := by
  refine ⟨by decide, by decide, by decide⟩

/-! ## Claim C2 -/

/-- Claim C2: `/uploads/request` checks its preconditions in source order with
the first failure winning — presence/finiteness of the declared fields, then
size positive, then size at most the per-upload ceiling, then subscription
expiry strictly in the future, then `used_bytes + sizeBytes` at most
`quota_gb * 2^30` — and the quota boundary is inclusive: an exact fit is
accepted, one byte more is rejected with the `PolicyError` rejection
`quotaExceeded` (HTTP 403 "Quota exceeded"). -/
theorem C2_admission_order_and_boundary (st : TenantState) (mt : String)
    (n maxB now : Int) (fid key : String) :
    (requestUpload st none maxB now fid key = .error .missingFields) ∧
    (∀ b : UploadBody,
      b.mimeType = none ∨ b.mimeType = some "" ∨ b.sizeBytes = none →
      requestUpload st (some b) maxB now fid key = .error .missingFields) ∧
    (mt ≠ "" → n ≤ 0 →
      requestUpload st (some ⟨some mt, some n⟩) maxB now fid key
        = .error .nonPositiveSize) ∧
    (mt ≠ "" → 0 < n → maxB < n →
      requestUpload st (some ⟨some mt, some n⟩) maxB now fid key
        = .error .tooLarge) ∧
    (mt ≠ "" → 0 < n → n ≤ maxB → st.user.subscription_expires_at ≤ now →
      requestUpload st (some ⟨some mt, some n⟩) maxB now fid key
        = .error .subscriptionExpired) ∧
    (mt ≠ "" → 0 < n → n ≤ maxB → now < st.user.subscription_expires_at →
      st.user.quota_gb * GB < st.user.used_bytes + n →
      requestUpload st (some ⟨some mt, some n⟩) maxB now fid key
          = .error .quotaExceeded ∧
        isPolicyReject .quotaExceeded = true) ∧
    (mt ≠ "" → 0 < n → n ≤ maxB → now < st.user.subscription_expires_at →
      st.user.used_bytes + n ≤ st.user.quota_gb * GB →
      (requestUpload st (some ⟨some mt, some n⟩) maxB now fid key).isOk
        = true) ∧
    (mt ≠ "" → 0 < n → n + 1 ≤ maxB → now < st.user.subscription_expires_at →
      st.user.used_bytes + n = st.user.quota_gb * GB →
      (requestUpload st (some ⟨some mt, some n⟩) maxB now fid key).isOk
          = true ∧
        requestUpload st (some ⟨some mt, some (n + 1)⟩) maxB now fid key
          = .error .quotaExceeded) := by
  have hq : ∀ m : Int, isSubscriptionActive m st.user.subscription_expires_at = true
      ↔ m < st.user.subscription_expires_at := by
    intro m
    simp [isSubscriptionActive]
  refine ⟨rfl, ?_, ?_, ?_, ?_, ?_, ?_, ?_⟩
  · intro b hb
    rcases b with ⟨mt?, n?⟩
    rcases hb with h1 | h1 | h1 <;> simp only at h1 <;> subst h1
    · rfl
    · rcases n? with _ | n2
      · rfl
      · simp [requestUpload]
    · rcases mt? with _ | mt2
      · rfl
      · rfl
  · intro h1 h2
    simp only [requestUpload]
    rw [if_neg h1, if_pos h2]
  · intro h1 h2 h3
    simp only [requestUpload]
    rw [if_neg h1, if_neg (show ¬ n ≤ 0 by omega), if_pos h3]
  · intro h1 h2 h3 h4
    simp only [requestUpload]
    rw [if_neg h1, if_neg (show ¬ n ≤ 0 by omega),
      if_neg (show ¬ maxB < n by omega),
      if_pos (show ¬ (isSubscriptionActive now st.user.subscription_expires_at = true) by
        rw [hq]; omega)]
  · intro h1 h2 h3 h4 h5
    refine ⟨?_, rfl⟩
    simp only [requestUpload]
    rw [if_neg h1, if_neg (show ¬ n ≤ 0 by omega),
      if_neg (show ¬ maxB < n by omega),
      if_neg (show ¬ ¬ (isSubscriptionActive now st.user.subscription_expires_at = true) by
        rw [hq]; omega),
      if_pos h5]
  · intro h1 h2 h3 h4 h5
    simp only [requestUpload]
    rw [if_neg h1, if_neg (show ¬ n ≤ 0 by omega),
      if_neg (show ¬ maxB < n by omega),
      if_neg (show ¬ ¬ (isSubscriptionActive now st.user.subscription_expires_at = true) by
        rw [hq]; omega),
      if_neg (show ¬ (st.user.quota_gb * GB < st.user.used_bytes + n) by omega)]
    rfl
  · intro h1 h2 h3 h4 h5
    constructor
    · simp only [requestUpload]
      rw [if_neg h1, if_neg (show ¬ n ≤ 0 by omega),
        if_neg (show ¬ maxB < n by omega),
        if_neg (show ¬ ¬ (isSubscriptionActive now st.user.subscription_expires_at = true) by
          rw [hq]; omega),
        if_neg (show ¬ (st.user.quota_gb * GB < st.user.used_bytes + n) by omega)]
      rfl
    · simp only [requestUpload]
      rw [if_neg h1, if_neg (show ¬ n + 1 ≤ 0 by omega),
        if_neg (show ¬ maxB < n + 1 by omega),
        if_neg (show ¬ ¬ (isSubscriptionActive now st.user.subscription_expires_at = true) by
          rw [hq]; omega),
        if_pos (show st.user.quota_gb * GB < st.user.used_bytes + (n + 1) by omega)]

theorem C2_admission_order_and_boundary_witness :
    ((requestUpload
        { user := { sampleUser with used_bytes := 24 }, files := [] }
        (some ⟨some "text/plain", some (GB - 24)⟩) (5 * GB) 0 "A" "kA").isOk
      = true) ∧
    (requestUpload
        { user := { sampleUser with used_bytes := 24 }, files := [] }
        (some ⟨some "text/plain", some (GB - 24 + 1)⟩) (5 * GB) 0 "A" "kA"
      = .error .quotaExceeded) := by
  have h := (C2_admission_order_and_boundary
    { user := { sampleUser with used_bytes := 24 }, files := [] }
    "text/plain" (GB - 24) (5 * GB) 0 "A" "kA").2.2.2.2.2.2.2
  exact h (by decide) (by decide) (by decide) (by decide) (by decide)


/-! ## Claim C3 -/

/-- Claim C3: completion is idempotent on an already-`active` file — the call
returns the current usage snapshot with no state change (so a second and
third call agree) — and `uploads_count` is incremented exactly once, on the
pending-to-active call, which also makes the row `active` so that every later
call takes the early-return branch. -/
theorem C3_completion_idempotent (st : TenantState) (fid : String) (f : FileRow)
    (probe probe2 : ProbeOutcome) (now now2 : Int)
    (hfind : findFile st fid = some f) (hactive : f.status = "active") :
    completeUpload st (some fid) probe now
      = (st, .alreadyActive f.file_id (usagePayload st.user)) ∧
    completeUpload st (some fid) probe2 now2
      = (st, .alreadyActive f.file_id (usagePayload st.user)) ∧
    (∀ (st0 : TenantState) (f0 : FileRow) (n : Int) (ct : Option String) (now0 : Int),
      findFile st0 fid = some f0 → f0.status ≠ "active" →
      (completeUpload st0 (some fid) (.ok n ct) now0).1.user.uploads_count
          = st0.user.uploads_count + 1 ∧
      findFile ((completeUpload st0 (some fid) (.ok n ct) now0).1) fid
        = some { f0 with
            size_bytes := some n,
            mime_type := (ct <|> f0.mime_type),
            status := "active" }) := by
  refine ⟨by simp [completeUpload, hfind, hactive], by simp [completeUpload, hfind, hactive], ?_⟩
  intro st0 f0 n ct now0 hfind0 hna0
  constructor
  · simp [completeUpload, hfind0, hna0]
  · simp only [completeUpload, hfind0, if_neg hna0]
    exact find?_update_found st0.files fid f0 _ (fun g => rfl) (fun g => rfl) hfind0

theorem C3_completion_idempotent_witness :
    completeUpload
        { user := sampleUser,
          files := [{ pendingFile with status := "active" }] }
        (some "f1") .failed 5
      = ({ user := sampleUser,
           files := [{ pendingFile with status := "active" }] },
         .alreadyActive "f1" (usagePayload sampleUser)) :=
  (C3_completion_idempotent
    { user := sampleUser, files := [{ pendingFile with status := "active" }] }
    "f1" { pendingFile with status := "active" } .failed .failed 5 6
    (by decide) (by decide)).1

/-! ## Claim C7 -/

/-- Claim C7 (amended): when the HEAD probe fails (non-success status or
timeout, both of which make `verifyObjectAndReadHeaders` throw), completion
aborts with no change to the file rows or the tenant counters — but the
thrown error escapes to the worker's catch-all, so the caller receives the
generic 500 "Internal server error" answer, not a distinct retryable
client-fault.  (The claim's error-classification half is refuted by
`C7_counterexample`.) -/
theorem C7_probe_failure_aborts (st : TenantState) (fid : String) (f : FileRow)
    (now : Int) (hfind : findFile st fid = some f) (hna : f.status ≠ "active") :
    completeUpload st (some fid) .failed now = (st, .probeFailed) ∧
    completeResponse .probeFailed = internalServerError ∧
    isClientFault internalServerError = false := by
  refine ⟨?_, rfl, by decide⟩
  simp [completeUpload, hfind, hna]

theorem C7_probe_failure_aborts_witness :
    completeUpload pendingState (some "f1") .failed 0
      = (pendingState, .probeFailed) ∧
    completeResponse .probeFailed = internalServerError ∧
    isClientFault internalServerError = false :=
  C7_probe_failure_aborts pendingState "f1" pendingFile 0 (by decide) (by decide)

/-- Claim C7 as frozen is false in its reporting half: at a concrete pending
file whose probe fails, the state is unchanged (that half holds) but the
caller receives exactly the catch-all's generic 500 internal-server-error
answer — a server-fault, not a retryable client-fault error class. -/
theorem C7_counterexample :
    (completeUpload pendingState (some "f1") .failed 0).1 = pendingState ∧
    completeResponse (completeUpload pendingState (some "f1") .failed 0).2
      = internalServerError ∧
    internalServerError.status = 500 ∧
    internalServerError.error = some "Internal server error" ∧
    isClientFault internalServerError = false := by
  refine ⟨by decide, by decide, rfl, rfl, by decide⟩

/-! ## Claim C9 -/

/-- Claim C9 (amended): the worker exposes no replace entry points.  The only
`POST` routes are `/auth/login`, `/uploads/request` and `/uploads/complete`;
requests with any other method than POST/GET/DELETE match nothing; every
would-be replace path answers the final `badRequest("Not found", 404)`.
(The claim as frozen asserts `requestReplace`/`completeReplace` exist; see
`C9_counterexample`.) -/
theorem C9_no_replace_entry_points :
    (∀ path : String, path ≠ "/auth/login" → path ≠ "/uploads/request" →
      path ≠ "/uploads/complete" → matchRoute "POST" path = .notFound) ∧
    (∀ method path : String, method ≠ "POST" → method ≠ "GET" →
      method ≠ "DELETE" → matchRoute method path = .notFound) := by
  constructor
  · intro p h1 h2 h3
    simp only [matchRoute]
    rw [if_neg (by simp [h1]), if_neg (by simp [h2]), if_neg (by simp [h3]),
      if_neg (by simp : ¬ (("POST" : String) = "GET" ∧ p = "/files")),
      if_neg (show ¬ ("POST" : String) = "GET" by decide),
      if_neg (show ¬ ("POST" : String) = "DELETE" by decide)]
  · intro m p h1 h2 h3
    simp only [matchRoute]
    rw [if_neg (by simp [h1]), if_neg (by simp [h1]), if_neg (by simp [h1]),
      if_neg (by simp [h2]), if_neg h2, if_neg h3]

theorem C9_no_replace_entry_points_witness :
    matchRoute "POST" "/uploads/replace" = .notFound ∧
    matchRoute "PATCH" "/files/f1/replace" = .notFound :=
  ⟨C9_no_replace_entry_points.1 "/uploads/replace"
      (by decide) (by decide) (by decide),
    C9_no_replace_entry_points.2 "PATCH" "/files/f1/replace"
      (by decide) (by decide) (by decide)⟩

/-- Claim C9 as frozen is false: no route of the worker is a replace
operation — every plausible replace path falls through to the 404 branch of
the dispatcher. -/
theorem C9_counterexample :
    matchRoute "POST" "/files/f1/replace" = .notFound ∧
    matchRoute "POST" "/replace/request" = .notFound ∧
    matchRoute "PUT" "/files/f1" = .notFound ∧
    matchRoute "POST" "/uploads/replace" = .notFound := by
  refine ⟨by decide, by decide, by decide, by decide⟩

/-! ## Claim C10 -/

/-- Claim C10: when the HEAD probe succeeds but carries no `content-length`
header — or one that `Number(x || 0)` coerces to `0` (the empty or
all-whitespace string) — the observed size is `0`: the file is activated with
`size_bytes = 0`, `used_bytes` does not change, and `uploads_count` still
increments. -/
theorem C10_zero_content_length (st : TenantState) (fid : String) (f : FileRow)
    (cl ct : Option String) (now n : Int)
    (hfind : findFile st fid = some f) (hna : f.status ≠ "active")
    (hcl : observedSizeBytes cl = some n) (hn : n = 0) :
    observedSizeBytes none = some 0 ∧
    (completeUpload st (some fid) (.ok n ct) now).1.user.used_bytes
      = st.user.used_bytes ∧
    (completeUpload st (some fid) (.ok n ct) now).1.user.uploads_count
      = st.user.uploads_count + 1 ∧
    findFile ((completeUpload st (some fid) (.ok n ct) now).1) fid
      = some { f with
          size_bytes := some 0,
          mime_type := (ct <|> f.mime_type),
          status := "active" } ∧
    (completeUpload st (some fid) (.ok n ct) now).2
      = .completed f.file_id 0
          (usagePayload (completeUpload st (some fid) (.ok n ct) now).1.user) := by
  subst hn
  refine ⟨rfl, ?_, ?_, ?_, ?_⟩
  · simp [completeUpload, hfind, hna]
  · simp [completeUpload, hfind, hna]
  · simp only [completeUpload, hfind, if_neg hna]
    exact find?_update_found st.files fid f _ (fun g => rfl) (fun g => rfl) hfind
  · simp [completeUpload, hfind, hna]

theorem C10_zero_content_length_witness :
    (completeUpload pendingState (some "f1") (.ok 0 none) 3).1.user.used_bytes
      = pendingState.user.used_bytes ∧
    (completeUpload pendingState (some "f1") (.ok 0 none) 3).1.user.uploads_count
      = pendingState.user.uploads_count + 1 := by
  have h := C10_zero_content_length pendingState "f1" pendingFile none none 3 0
    (by decide) (by decide) (by decide) rfl
  exact ⟨h.2.1, h.2.2.1⟩


/-! ## Claim C8 -/

theorem statusStep_refl (a : Option String) : statusStep a a := by
  refine ⟨le_refl _, fun h => h, fun h => ?_⟩
  rw [h]
  simp

theorem find?_ext (l : List FileRow) (p q : FileRow → Bool)
    (h : ∀ a, p a = q a) : l.find? p = l.find? q := by
  have hpq : p = q := funext h
  rw [hpq]

theorem fileStatus_map_update (l : List FileRow) (fid : String) (f : FileRow)
    (u : FileRow → FileRow) (hid : ∀ g, (u g).file_id = g.file_id) :
    (l.map (fun g => if g.file_id = f.file_id then u g else g)).find?
        (fun g => g.file_id == fid)
      = (l.find? (fun g => g.file_id == fid)).map
          (fun g => if g.file_id = f.file_id then u g else g) := by
  rw [List.find?_map]
  congr 1
  apply find?_ext
  intro a
  simp only [Function.comp_apply]
  by_cases ha : a.file_id = f.file_id
  · rw [if_pos ha, hid a]
  · rw [if_neg ha]

theorem statusStep_step (st : TenantState) (op : Op) (fid : String)
    (h : InvBase st) (hf : stepFresh st op = true) :
    statusStep (fileStatus st fid) (fileStatus (step st op) fid) := by
  cases op with
  | request body maxB now fid0 key =>
    rcases step_request_cases st body maxB now fid0 key with heq | ⟨mt, n, hbody, hn, heq⟩
    · rw [heq]; exact statusStep_refl _
    · rw [heq]
      unfold fileStatus
      simp only [List.find?_append]
      cases hfind : st.files.find? (fun g => g.file_id == fid) with
      | some r =>
        simp only [Option.or_some]
        exact statusStep_refl _
      | none =>
        simp only [Option.none_or]
        by_cases hr : fid0 = fid
        · rw [List.find?_cons_of_pos _ (by simp [hr])]
          refine ⟨?_, by simp, by simp⟩
          simp [rankO, statusRank]
        · rw [List.find?_cons_of_neg _ (by simp [hr])]
          exact statusStep_refl _
  | complete body probe now =>
    rcases completeUpload_state_cases st body probe now with heq |
      ⟨fid0, f, n, ct, hb, hfind, hna, hp, heq⟩
    · simp only [step]; rw [heq]; exact statusStep_refl _
    · have hf3 := findRow_eq st.files fid0 f hfind
      have hnd : f.status ≠ "deleted" := by
        intro hdel
        exact h.delStatus f hf3.1 hdel hf3.2.2
      have hpend : f.status = "pending" := by
        rcases h.statusRange f hf3.1 with h1 | h1 | h1
        · exact h1
        · exact absurd h1 hna
        · exact absurd h1 hnd
      simp only [step]; rw [heq]
      unfold fileStatus
      dsimp only
      rw [fileStatus_map_update st.files fid f
        (fun g => { g with
          size_bytes := some n,
          mime_type := (ct <|> g.mime_type),
          status := "active" })
        (fun g => rfl)]
      cases hfr : st.files.find? (fun g => g.file_id == fid) with
      | none => exact statusStep_refl _
      | some r =>
        simp only [Option.map_some']
        by_cases hrid : r.file_id = f.file_id
        · have hrf : r = f :=
            mem_id_unique st.files r f h.nodup
              (List.mem_of_find?_eq_some hfr) hf3.1 hrid
          subst hrf
          rw [if_pos hrid]
          refine ⟨?_, ?_, ?_⟩
          · simp [rankO, statusRank, hpend]
          · intro hcc
            injection hcc with hcc2
            exact absurd hcc2 (hpend ▸ (by decide : ¬ ("pending" : String) = "deleted"))
          · intro hcc
            injection hcc with hcc2
            exact absurd hcc2 (hpend ▸ (by decide : ¬ ("pending" : String) = "active"))
        · rw [if_neg hrid]
          exact statusStep_refl _
  | delete fid0 now =>
    rcases deleteFile_state_cases st fid0 now with heq | ⟨f, hfind, heq⟩
    · simp only [step]; rw [heq]; exact statusStep_refl _
    · have hf3 := findRow_eq st.files fid0 f hfind
      have hnd : f.status ≠ "deleted" := by
        intro hdel
        exact h.delStatus f hf3.1 hdel hf3.2.2
      simp only [step]; rw [heq]
      unfold fileStatus
      dsimp only
      rw [fileStatus_map_update st.files fid f
        (fun g => { g with deleted_at := some now, status := "deleted" })
        (fun g => rfl)]
      cases hfr : st.files.find? (fun g => g.file_id == fid) with
      | none => exact statusStep_refl _
      | some r =>
        simp only [Option.map_some']
        by_cases hrid : r.file_id = f.file_id
        · have hrf : r = f :=
            mem_id_unique st.files r f h.nodup
              (List.mem_of_find?_eq_some hfr) hf3.1 hrid
          subst hrf
          rw [if_pos hrid]
          refine ⟨?_, ?_, ?_⟩
          · simp only [rankO, statusRank]
            split
            · simp
            · split <;> simp
          · intro hcc
            injection hcc with hcc2
            exact absurd hcc2 hnd
          · intro hcc
            simp [rankO, statusRank]
        · rw [if_neg hrid]
          exact statusStep_refl _

theorem scanl_head (s : TenantState) (ops : List Op) :
    (List.scanl step s ops).head? = some s := by
  cases ops <;> simp [List.scanl]

/-- Claim C8 (amended): along every modelled trace from a structurally
consistent state, each file id's status rank (`pending` 0, `active` 1,
`deleted` 2) never decreases, `deleted` is terminal, and a file never moves
back from `active` to `pending`; however the direct `pending → deleted`
transition IS reachable — `DELETE /files/:id` accepts any row with
`deleted_at IS NULL` — which refutes the frozen claim's "no transition skips
a state" (see `C8_counterexample`). -/
theorem C8_status_lifecycle (st : TenantState) (ops : List Op) (fid : String)
    (h : InvBase st) (hfr : freshTrace st ops = true) :
    List.Chain' statusStep
      ((List.scanl step st ops).map (fun s => fileStatus s fid)) := by
  induction ops generalizing st with
  | nil => simp [List.scanl]
  | cons op ops ih =>
    simp only [freshTrace, Bool.and_eq_true] at hfr
    rw [List.scanl_cons, List.singleton_append, List.map_cons]
    apply List.chain'_cons'.2
    constructor
    · intro y hy
      rw [List.head?_map, scanl_head] at hy
      simp only [Option.map_some', Option.mem_def, Option.some.injEq] at hy
      subst hy
      exact statusStep_step st op fid h hfr.1
    · exact ih (step st op) (invBase_step st op h hfr.1) hfr.2

theorem C8_status_lifecycle_witness :
    freshTrace sampleState c1Ops = true ∧
    List.Chain' statusStep
      ((List.scanl step sampleState c1Ops).map (fun s => fileStatus s "B")) :=
  ⟨by decide,
    C8_status_lifecycle sampleState c1Ops "B"
      ⟨by decide, by decide, by decide⟩ (by decide)⟩

/-- Claim C8 as frozen is false: from a fresh tenant, after accepting file A,
completing it and accepting file B, file B's row is `pending`, and a single
`DELETE /files/B` step moves it directly to `deleted`, skipping `active`. -/
theorem C8_counterexample :
    fileStatus (run sampleState (c1Ops.take 3)) "B" = some "pending" ∧
    fileStatus (step (run sampleState (c1Ops.take 3)) (.delete "B" 3)) "B"
      = some "deleted" := by
  refine ⟨by decide, by decide⟩


/-! ## Helper lemmas: base64 -/

theorem encodeSextets_lt64 : ∀ (bs : List Nat), (∀ b ∈ bs, b < 256) →
    ∀ s ∈ encodeSextets bs, s < 64
  | a :: b :: c :: rest, h => by
    intro s hs
    have ha := h a (by simp)
    have hbb := h b (by simp)
    have hcc := h c (by simp)
    simp only [encodeSextets, List.mem_cons] at hs
    rcases hs with rfl | rfl | rfl | rfl | hs
    · omega
    · omega
    · omega
    · omega
    · exact encodeSextets_lt64 rest (fun x hx => h x (by simp [hx])) s hs
  | [a, b], h => by
    intro s hs
    have ha := h a (by simp)
    have hbb := h b (by simp)
    simp only [encodeSextets, List.mem_cons, List.not_mem_nil, or_false] at hs
    rcases hs with rfl | rfl | rfl <;> omega
  | [a], h => by
    intro s hs
    have ha := h a (by simp)
    simp only [encodeSextets, List.mem_cons, List.not_mem_nil, or_false] at hs
    rcases hs with rfl | rfl <;> omega
  | [], _ => by
    intro s hs
    simp [encodeSextets] at hs

theorem decode_encode_sextets : ∀ (bs : List Nat), (∀ b ∈ bs, b < 256) →
    decodeSextets (encodeSextets bs) = bs
  | a :: b :: c :: rest, h => by
    have ha := h a (by simp)
    have hbb := h b (by simp)
    have hcc := h c (by simp)
    have ih := decode_encode_sextets rest (fun x hx => h x (by simp [hx]))
    simp only [encodeSextets, decodeSextets, ih, List.cons.injEq, and_true]
    refine ⟨by omega, by omega, by omega⟩
  | [a, b], h => by
    have ha := h a (by simp)
    have hbb := h b (by simp)
    simp only [encodeSextets, decodeSextets, List.cons.injEq, and_true]
    refine ⟨by omega, by omega⟩
  | [a], h => by
    have ha := h a (by simp)
    simp only [encodeSextets, decodeSextets, List.cons.injEq, and_true]
    omega
  | [], _ => rfl

theorem encodeSextets_length_mod : ∀ (bs : List Nat),
    (encodeSextets bs).length % 4 = 0 ∨ (encodeSextets bs).length % 4 = 2 ∨
      (encodeSextets bs).length % 4 = 3
  | _ :: _ :: _ :: rest => by
    have ih := encodeSextets_length_mod rest
    simp only [encodeSextets, List.length_cons]
    omega
  | [_, _] => by simp [encodeSextets]
  | [_] => by simp [encodeSextets]
  | [] => by simp [encodeSextets]

theorem b64Char_roundtrip : ∀ n, n < 64 →
    b64CharValueStd (b64Normalize (b64Char n)) = some n := by decide

theorem b64CharNorm_not_space : ∀ n, n < 64 →
    isB64Space (b64Normalize (b64Char n)) = false := by decide

theorem b64CharNorm_ne_eq : ∀ n, n < 64 → b64Normalize (b64Char n) ≠ '=' := by decide

theorem b64Char_ne_dot : ∀ n, n < 64 → b64Char n ≠ '.' := by decide

theorem mapM_b64CharValue (l : List Nat) (h : ∀ a ∈ l, a < 64) :
    ((l.map (fun n => b64Normalize (b64Char n))).mapM b64CharValueStd) = some l := by
  induction l with
  | nil => rfl
  | cons a t ih =>
    rw [List.map_cons, List.mapM_cons, b64Char_roundtrip a (h a (by simp)),
      ih (fun x hx => h x (by simp [hx]))]
    rfl

theorem stripPad_of_ne (cs : List Char) (h : ∀ c ∈ cs, c ≠ '=') :
    stripPad cs = cs := by
  unfold stripPad
  split
  · rename_i rest heq
    exfalso
    refine h '=' ?_ rfl
    rw [← List.mem_reverse, heq]
    simp
  · rename_i rest heq
    exfalso
    refine h '=' ?_ rfl
    rw [← List.mem_reverse, heq]
    simp
  · rfl

theorem stripPad_append_one (cs : List Char) (h : ∀ c ∈ cs, c ≠ '=') :
    stripPad (cs ++ ['=']) = cs := by
  unfold stripPad
  have hrw : (cs ++ ['=']).reverse = '=' :: cs.reverse := by simp
  rw [hrw]
  split
  · rename_i rest heq
    exfalso
    injection heq with _ h2
    refine h '=' ?_ rfl
    rw [← List.mem_reverse, h2]
    simp
  · rename_i rest heq
    injection heq with _ h2
    rw [← h2, List.reverse_reverse]
  · rename_i hne1 hne2
    exact absurd rfl (hne2 cs.reverse)

theorem stripPad_append_two (cs : List Char) (h : ∀ c ∈ cs, c ≠ '=') :
    stripPad (cs ++ ['=', '=']) = cs := by
  unfold stripPad
  have hrw : (cs ++ ['=', '=']).reverse = '=' :: '=' :: cs.reverse := by simp
  rw [hrw]
  split
  · rename_i rest heq
    injection heq with _ h2
    injection h2 with _ h3
    rw [← h3, List.reverse_reverse]
  · rename_i pvar hfirst heq
    injection heq with _ h2
    exact absurd h2.symm (hfirst cs.reverse)
  · rename_i hne1 hne2
    exact absurd rfl (hne1 cs.reverse)

theorem base64UrlDecode_encode (bs : List Nat) (h : ∀ b ∈ bs, b < 256) :
    base64UrlDecode (base64UrlEncode bs) = some bs := by
  have hlt := encodeSextets_lt64 bs h
  unfold base64UrlEncode base64UrlDecode
  show atob _ = some bs
  rw [show (String.mk ((encodeSextets bs).map b64Char)).data
      = (encodeSextets bs).map b64Char from rfl]
  rw [List.map_map]
  have hmapeq : (encodeSextets bs).map (b64Normalize ∘ b64Char)
      = (encodeSextets bs).map (fun n => b64Normalize (b64Char n)) := rfl
  rw [hmapeq]
  set L := (encodeSextets bs).map (fun n => b64Normalize (b64Char n)) with hL
  have hlen : L.length = (encodeSextets bs).length := by
    rw [hL, List.length_map]
  have hns : ∀ c ∈ L, (! isB64Space c) = true := by
    intro c hc
    rw [hL] at hc
    rcases List.mem_map.1 hc with ⟨n, hn, rfl⟩
    rw [b64CharNorm_not_space n (hlt n hn)]
    rfl
  have hne : ∀ c ∈ L, c ≠ '=' := by
    intro c hc
    rw [hL] at hc
    rcases List.mem_map.1 hc with ⟨n, hn, rfl⟩
    exact b64CharNorm_ne_eq n (hlt n hn)
  have hmod := encodeSextets_length_mod bs
  unfold atob
  have hfilter : (L ++ List.replicate ((4 - L.length % 4) % 4) '=').filter
      (fun c => ! isB64Space c) = L ++ List.replicate ((4 - L.length % 4) % 4) '=' := by
    rw [List.filter_eq_self]
    intro a ha
    rcases List.mem_append.1 ha with h1 | h1
    · exact hns a h1
    · rw [List.eq_of_mem_replicate h1]
      rfl
  have hlen2 : (L ++ List.replicate ((4 - L.length % 4) % 4) '=').length % 4 = 0 := by
    rw [List.length_append, List.length_replicate]
    omega
  have hstrip : stripPad (L ++ List.replicate ((4 - L.length % 4) % 4) '=') = L := by
    rcases hmod with hm | hm | hm
    · rw [show (4 - L.length % 4) % 4 = 0 by omega]
      rw [List.replicate_zero, List.append_nil]
      exact stripPad_of_ne L hne
    · rw [show (4 - L.length % 4) % 4 = 2 by omega]
      rw [show List.replicate 2 '=' = ['=', '='] from rfl]
      exact stripPad_append_two L hne
    · rw [show (4 - L.length % 4) % 4 = 1 by omega]
      rw [show List.replicate 1 '=' = ['='] from rfl]
      exact stripPad_append_one L hne
  simp only [hfilter]
  rw [if_pos hlen2, hstrip, if_neg (by omega : ¬ L.length % 4 = 1), hL,
    mapM_b64CharValue (encodeSextets bs) hlt, Option.map_some',
    decode_encode_sextets bs h]

/-! ## Helper lemmas: UTF-8 -/

theorem charOfNat_toNat (c : Char) : Char.ofNat c.toNat = c := by
  have h : Nat.isValidChar c.toNat := c.valid
  apply Char.eq_of_val_eq
  unfold Char.ofNat
  rw [dif_pos h]
  rfl

theorem char_toNat_lt (c : Char) :
    c.toNat < 55296 ∨ (57344 ≤ c.toNat ∧ c.toNat < 1114112) := c.valid

theorem utf8DecodeChar_encode (c : Char) (rest : List Nat) :
    utf8DecodeChar (utf8EncodeChar c ++ rest) = some (c, rest) := by
  have hv := char_toNat_lt c
  unfold utf8EncodeChar
  by_cases h1 : c.toNat < 128
  · rw [if_pos h1]
    show utf8DecodeChar (c.toNat :: rest) = _
    simp only [utf8DecodeChar]
    rw [if_pos h1, charOfNat_toNat]
  · rw [if_neg h1]
    by_cases h2 : c.toNat < 2048
    · rw [if_pos h2]
      show utf8DecodeChar ((192 + c.toNat / 64) :: (128 + c.toNat % 64) :: rest) = _
      simp only [utf8DecodeChar]
      rw [if_neg (by omega), if_neg (by omega), if_pos (by omega)]
      rw [if_pos (by omega : 128 ≤ 128 + c.toNat % 64 ∧ 128 + c.toNat % 64 < 192)]
      rw [show (192 + c.toNat / 64 - 192) * 64 + (128 + c.toNat % 64 - 128)
          = c.toNat by omega, charOfNat_toNat]
    · rw [if_neg h2]
      by_cases h3 : c.toNat < 65536
      · rw [if_pos h3]
        show utf8DecodeChar ((224 + c.toNat / 4096) :: (128 + c.toNat / 64 % 64)
          :: (128 + c.toNat % 64) :: rest) = _
        simp only [utf8DecodeChar]
        rw [if_neg (by omega), if_neg (by omega), if_neg (by omega),
          if_pos (by omega)]
        rw [if_pos (by omega :
          (128 ≤ 128 + c.toNat / 64 % 64 ∧ 128 + c.toNat / 64 % 64 < 192) ∧
            128 ≤ 128 + c.toNat % 64 ∧ 128 + c.toNat % 64 < 192)]
        rw [show (224 + c.toNat / 4096 - 224) * 4096
            + (128 + c.toNat / 64 % 64 - 128) * 64 + (128 + c.toNat % 64 - 128)
            = c.toNat by omega, charOfNat_toNat]
      · rw [if_neg h3]
        show utf8DecodeChar ((240 + c.toNat / 262144) :: (128 + c.toNat / 4096 % 64)
          :: (128 + c.toNat / 64 % 64) :: (128 + c.toNat % 64) :: rest) = _
        simp only [utf8DecodeChar]
        rw [if_neg (by omega), if_neg (by omega), if_neg (by omega),
          if_neg (by omega)]
        rw [if_pos (by omega :
          (128 ≤ 128 + c.toNat / 4096 % 64 ∧ 128 + c.toNat / 4096 % 64 < 192) ∧
            (128 ≤ 128 + c.toNat / 64 % 64 ∧ 128 + c.toNat / 64 % 64 < 192) ∧
            128 ≤ 128 + c.toNat % 64 ∧ 128 + c.toNat % 64 < 192)]
        rw [show (240 + c.toNat / 262144 - 240) * 262144
            + (128 + c.toNat / 4096 % 64 - 128) * 4096
            + (128 + c.toNat / 64 % 64 - 128) * 64 + (128 + c.toNat % 64 - 128)
            = c.toNat by omega, charOfNat_toNat]

theorem utf8EncodeChar_ne_nil (c : Char) : utf8EncodeChar c ≠ [] := by
  unfold utf8EncodeChar
  split
  · simp
  · split
    · simp
    · split <;> simp

theorem utf8EncodeChar_lt256 (c : Char) : ∀ b ∈ utf8EncodeChar c, b < 256 := by
  have hv := char_toNat_lt c
  unfold utf8EncodeChar
  split
  · rename_i h1
    intro b hb
    simp only [List.mem_cons, List.not_mem_nil, or_false] at hb
    omega
  · split
    · rename_i h1 h2
      intro b hb
      simp only [List.mem_cons, List.not_mem_nil, or_false] at hb
      rcases hb with rfl | rfl <;> omega
    · split
      · rename_i h1 h2 h3
        intro b hb
        simp only [List.mem_cons, List.not_mem_nil, or_false] at hb
        rcases hb with rfl | rfl | rfl <;> omega
      · rename_i h1 h2 h3
        intro b hb
        simp only [List.mem_cons, List.not_mem_nil, or_false] at hb
        rcases hb with rfl | rfl | rfl | rfl <;> omega

theorem utf8EncodeList_cons (c : Char) (t : List Char) :
    utf8EncodeList (c :: t) = utf8EncodeChar c ++ utf8EncodeList t := rfl

theorem utf8EncodeList_lt256 (cs : List Char) :
    ∀ b ∈ utf8EncodeList cs, b < 256 := by
  induction cs with
  | nil => simp [utf8EncodeList]
  | cons c t ih =>
    intro b hb
    rw [utf8EncodeList_cons] at hb
    rcases List.mem_append.1 hb with h1 | h1
    · exact utf8EncodeChar_lt256 c b h1
    · exact ih b h1

theorem length_le_utf8EncodeList (cs : List Char) :
    cs.length ≤ (utf8EncodeList cs).length := by
  induction cs with
  | nil => simp [utf8EncodeList]
  | cons c t ih =>
    have h2 : 1 ≤ (utf8EncodeChar c).length := by
      cases hec : utf8EncodeChar c
      · exact absurd hec (utf8EncodeChar_ne_nil c)
      · simp
    rw [utf8EncodeList_cons, List.length_append, List.length_cons]
    omega

theorem utf8DecodeAux_encode : ∀ (cs : List Char) (fuel : Nat),
    cs.length ≤ fuel → utf8DecodeAux fuel (utf8EncodeList cs) = some cs
  | [], fuel, _ => by cases fuel <;> rfl
  | c :: t, fuel, hf => by
    obtain ⟨b, bs, hbs⟩ : ∃ b bs, utf8EncodeChar c = b :: bs := by
      cases hec : utf8EncodeChar c
      · exact absurd hec (utf8EncodeChar_ne_nil c)
      · exact ⟨_, _, rfl⟩
    obtain ⟨fuel2, rfl⟩ : ∃ f, fuel = f + 1 := by
      cases fuel
      · simp at hf
      · exact ⟨_, rfl⟩
    have hdc := utf8DecodeChar_encode c (utf8EncodeList t)
    have ih := utf8DecodeAux_encode t fuel2 (by
      simp only [List.length_cons] at hf
      omega)
    rw [utf8EncodeList_cons, hbs]
    rw [hbs, List.cons_append] at hdc
    show (match utf8DecodeChar (b :: (bs ++ utf8EncodeList t)) with
      | none => none
      | some (c, rest) => (utf8DecodeAux fuel2 rest).map (fun cs => c :: cs))
      = some (c :: t)
    rw [hdc]
    show (utf8DecodeAux fuel2 (utf8EncodeList t)).map (fun cs => c :: cs)
      = some (c :: t)
    rw [ih]
    rfl

theorem utf8Decode_encodeList (cs : List Char) :
    utf8Decode (utf8EncodeList cs) = some cs :=
  utf8DecodeAux_encode cs _ (length_le_utf8EncodeList cs)

/-! ## Helper lemmas: JSON serialization round trip -/

theorem charToNat_ofNat (m : Nat) (h : m < 55296) : (Char.ofNat m).toNat = m := by
  have hv : Nat.isValidChar m := Or.inl h
  unfold Char.ofNat
  rw [dif_pos hv]
  rfl

theorem hexVal_hexDigitChar : ∀ k, k < 16 → hexVal (hexDigitChar k) = some k := by
  decide

theorem eatLit_append : ∀ (lit rest : List Char), eatLit lit (lit ++ rest) = some rest
  | [], rest => rfl
  | c :: lit, rest => by
    show eatLit (c :: lit) (c :: (lit ++ rest)) = some rest
    simp only [eatLit, if_pos rfl]
    exact eatLit_append lit rest

theorem jsonEscape_cons (c : Char) (t : List Char) :
    jsonEscape (c :: t) = jsonEscapeChar c ++ jsonEscape t := rfl

theorem length_le_jsonEscape (cs : List Char) :
    cs.length ≤ (jsonEscape cs).length := by
  induction cs with
  | nil => simp [jsonEscape]
  | cons c t ih =>
    rw [jsonEscape_cons, List.length_append, List.length_cons]
    have h1 : 1 ≤ (jsonEscapeChar c).length := by
      unfold jsonEscapeChar
      split
      · simp
      · split
        · simp
        · split
          · simp
          · split
            · simp
            · split
              · simp
              · split
                · simp
                · split
                  · simp
                  · split <;> simp
    omega

theorem parseJsonString_roundtrip : ∀ (cs rest : List Char) (fuel : Nat),
    cs.length < fuel →
    parseJsonStringAux fuel (jsonEscape cs ++ '"' :: rest) = some (cs, rest)
  | [], rest, fuel, hf => by
    obtain ⟨f, rfl⟩ : ∃ f, fuel = f + 1 := by
      cases fuel
      · omega
      · exact ⟨_, rfl⟩
    show parseJsonStringAux (f + 1) ('"' :: rest) = some ([], rest)
    simp only [parseJsonStringAux, if_true, if_false]
  | c :: t, rest, fuel, hf => by
    obtain ⟨f, rfl⟩ : ∃ f, fuel = f + 1 := by
      cases fuel
      · omega
      · exact ⟨_, rfl⟩
    have ih := parseJsonString_roundtrip t rest f (by
      simp only [List.length_cons] at hf
      omega)
    rw [jsonEscape_cons, List.append_assoc]
    unfold jsonEscapeChar
    by_cases h1 : c = '"'
    · rw [if_pos h1]
      show parseJsonStringAux (f + 1) ('\\' :: '"' :: (jsonEscape t ++ '"' :: rest))
        = some (c :: t, rest)
      simp only [parseJsonStringAux, if_true, if_false, if_neg (by decide : ¬ ('\\' : Char) = '"'),
        if_pos (rfl : ('\\' : Char) = '\\'), jsonUnescape, if_pos rfl, ih,
        Option.map_some']
      rw [h1]
    · rw [if_neg h1]
      by_cases h2 : c = '\\'
      · rw [if_pos h2]
        show parseJsonStringAux (f + 1) ('\\' :: '\\' :: (jsonEscape t ++ '"' :: rest))
          = some (c :: t, rest)
        simp only [parseJsonStringAux, if_true, if_false, if_neg (by decide : ¬ ('\\' : Char) = '"'),
          if_pos (rfl : ('\\' : Char) = '\\'), jsonUnescape,
          if_neg (by decide : ¬ ('\\' : Char) = '"'), if_pos rfl, ih,
          Option.map_some']
        rw [h2]
      · rw [if_neg h2]
        by_cases h3 : c = '\x08'
        · rw [if_pos h3]
          show parseJsonStringAux (f + 1) ('\\' :: 'b' :: (jsonEscape t ++ '"' :: rest))
            = some (c :: t, rest)
          simp only [parseJsonStringAux, if_true, if_false, if_neg (by decide : ¬ ('\\' : Char) = '"'),
            if_pos (rfl : ('\\' : Char) = '\\'), jsonUnescape,
            if_neg (by decide : ¬ ('b' : Char) = '"'),
            if_neg (by decide : ¬ ('b' : Char) = '\\'),
            if_neg (by decide : ¬ ('b' : Char) = '/'), if_pos rfl, ih,
            Option.map_some']
          rw [h3]
        · rw [if_neg h3]
          by_cases h4 : c = '\t'
          · rw [if_pos h4]
            show parseJsonStringAux (f + 1)
              ('\\' :: 't' :: (jsonEscape t ++ '"' :: rest)) = some (c :: t, rest)
            simp only [parseJsonStringAux, if_true, if_false, if_neg (by decide : ¬ ('\\' : Char) = '"'),
              if_pos (rfl : ('\\' : Char) = '\\'), jsonUnescape,
              if_neg (by decide : ¬ ('t' : Char) = '"'),
              if_neg (by decide : ¬ ('t' : Char) = '\\'),
              if_neg (by decide : ¬ ('t' : Char) = '/'),
              if_neg (by decide : ¬ ('t' : Char) = 'b'),
              if_neg (by decide : ¬ ('t' : Char) = 'f'),
              if_neg (by decide : ¬ ('t' : Char) = 'n'),
              if_neg (by decide : ¬ ('t' : Char) = 'r'), if_pos rfl, ih,
              Option.map_some']
            rw [h4]
          · rw [if_neg h4]
            by_cases h5 : c = '\n'
            · rw [if_pos h5]
              show parseJsonStringAux (f + 1)
                ('\\' :: 'n' :: (jsonEscape t ++ '"' :: rest)) = some (c :: t, rest)
              simp only [parseJsonStringAux, if_true, if_false,
                if_neg (by decide : ¬ ('\\' : Char) = '"'),
                if_pos (rfl : ('\\' : Char) = '\\'), jsonUnescape,
                if_neg (by decide : ¬ ('n' : Char) = '"'),
                if_neg (by decide : ¬ ('n' : Char) = '\\'),
                if_neg (by decide : ¬ ('n' : Char) = '/'),
                if_neg (by decide : ¬ ('n' : Char) = 'b'),
                if_neg (by decide : ¬ ('n' : Char) = 'f'), if_pos rfl, ih,
                Option.map_some']
              rw [h5]
            · rw [if_neg h5]
              by_cases h6 : c = '\x0c'
              · rw [if_pos h6]
                show parseJsonStringAux (f + 1)
                  ('\\' :: 'f' :: (jsonEscape t ++ '"' :: rest)) = some (c :: t, rest)
                simp only [parseJsonStringAux, if_true, if_false,
                  if_neg (by decide : ¬ ('\\' : Char) = '"'),
                  if_pos (rfl : ('\\' : Char) = '\\'), jsonUnescape,
                  if_neg (by decide : ¬ ('f' : Char) = '"'),
                  if_neg (by decide : ¬ ('f' : Char) = '\\'),
                  if_neg (by decide : ¬ ('f' : Char) = '/'),
                  if_neg (by decide : ¬ ('f' : Char) = 'b'), if_pos rfl, ih,
                  Option.map_some']
                rw [h6]
              · rw [if_neg h6]
                by_cases h7 : c = '\r'
                · rw [if_pos h7]
                  show parseJsonStringAux (f + 1)
                    ('\\' :: 'r' :: (jsonEscape t ++ '"' :: rest))
                    = some (c :: t, rest)
                  simp only [parseJsonStringAux, if_true, if_false,
                    if_neg (by decide : ¬ ('\\' : Char) = '"'),
                    if_pos (rfl : ('\\' : Char) = '\\'), jsonUnescape,
                    if_neg (by decide : ¬ ('r' : Char) = '"'),
                    if_neg (by decide : ¬ ('r' : Char) = '\\'),
                    if_neg (by decide : ¬ ('r' : Char) = '/'),
                    if_neg (by decide : ¬ ('r' : Char) = 'b'),
                    if_neg (by decide : ¬ ('r' : Char) = 'f'),
                    if_neg (by decide : ¬ ('r' : Char) = 'n'), if_pos rfl, ih,
                    Option.map_some']
                  rw [h7]
                · rw [if_neg h7]
                  by_cases h8 : c.toNat < 32
                  · rw [if_pos h8]
                    show parseJsonStringAux (f + 1)
                      ('\\' :: 'u' :: '0' :: '0' :: hexDigitChar (c.toNat / 16)
                        :: hexDigitChar (c.toNat % 16)
                        :: (jsonEscape t ++ '"' :: rest)) = some (c :: t, rest)
                    simp only [parseJsonStringAux, if_true, if_false,
                      if_neg (by decide : ¬ ('\\' : Char) = '"'),
                      if_pos (rfl : ('\\' : Char) = '\\'), jsonUnescape,
                      if_neg (by decide : ¬ ('u' : Char) = '"'),
                      if_neg (by decide : ¬ ('u' : Char) = '\\'),
                      if_neg (by decide : ¬ ('u' : Char) = '/'),
                      if_neg (by decide : ¬ ('u' : Char) = 'b'),
                      if_neg (by decide : ¬ ('u' : Char) = 'f'),
                      if_neg (by decide : ¬ ('u' : Char) = 'n'),
                      if_neg (by decide : ¬ ('u' : Char) = 'r'),
                      if_neg (by decide : ¬ ('u' : Char) = 't'),
                      if_pos (rfl : ('u' : Char) = 'u')]
                    rw [show hexVal '0' = some 0 from rfl,
                      hexVal_hexDigitChar (c.toNat / 16) (by omega),
                      hexVal_hexDigitChar (c.toNat % 16) (by omega)]
                    have hval : ((0 * 16 + 0) * 16 + c.toNat / 16) * 16
                        + c.toNat % 16 = c.toNat := by omega
                    have hnosur : ¬ (55296 ≤ c.toNat ∧ c.toNat < 57344) := by
                      omega
                    simp only [hval, if_neg hnosur, charOfNat_toNat, ih,
                      Option.map_some']
                  · rw [if_neg h8]
                    show parseJsonStringAux (f + 1)
                      (c :: (jsonEscape t ++ '"' :: rest)) = some (c :: t, rest)
                    simp only [parseJsonStringAux, if_true, if_false, if_neg h1, if_neg h2,
                      if_neg (by omega : ¬ c.toNat < 32), ih, Option.map_some']

theorem natDigitsAux_eq_digits : ∀ (fuel n : Nat), n ≤ fuel →
    natDigitsAux fuel n = Nat.digits 10 n
  | fuel, 0, _ => by cases fuel <;> simp [natDigitsAux]
  | 0, n + 1, h => by omega
  | fuel + 1, n + 1, h => by
    rw [show natDigitsAux (fuel + 1) (n + 1)
        = (n + 1) % 10 :: natDigitsAux fuel ((n + 1) / 10) from by
      simp [natDigitsAux]]
    rw [natDigitsAux_eq_digits fuel ((n + 1) / 10) (by omega)]
    rw [Nat.digits_def' (by norm_num : (1 : ℕ) < 10) (Nat.succ_pos n)]

theorem digitChar_isDigit : ∀ d, d < 10 → (Char.ofNat (48 + d)).isDigit = true := by
  decide

theorem digitChar_toNat (d : Nat) (h : d < 10) : (Char.ofNat (48 + d)).toNat = 48 + d :=
  charToNat_ofNat (48 + d) (by omega)

theorem natToChars_all_digit (n : Nat) : ∀ c ∈ natToChars n, c.isDigit = true := by
  unfold natToChars
  split
  · intro c hc
    simp only [List.mem_cons, List.not_mem_nil, or_false] at hc
    subst hc
    decide
  · intro c hc
    rcases List.mem_map.1 (by
      simpa using hc : c ∈ (natDigitsAux (n + 1) n).reverse.map
        (fun d => Char.ofNat (48 + d))) with ⟨d, hd, rfl⟩
    apply digitChar_isDigit
    rw [natDigitsAux_eq_digits (n + 1) n (by omega)] at hd
    exact Nat.digits_lt_base (by norm_num) (List.mem_reverse.1 hd)

theorem natToChars_ne_nil (n : Nat) : natToChars n ≠ [] := by
  unfold natToChars
  split
  · simp
  · rename_i h0
    intro hc
    rw [natDigitsAux_eq_digits (n + 1) n (by omega)] at hc
    rw [List.map_eq_nil, List.reverse_eq_nil_iff] at hc
    exact h0 (Nat.digits_eq_nil_iff_eq_zero.1 hc)

theorem takeWhile_append_of_all (p : Char → Bool) (l r : List Char)
    (h : ∀ a ∈ l, p a = true) : (l ++ r).takeWhile p = l ++ r.takeWhile p := by
  induction l with
  | nil => simp
  | cons a t ih =>
    simp only [List.cons_append, List.takeWhile_cons, h a (by simp), if_true, ih
      (fun x hx => h x (by simp [hx]))]

theorem dropWhile_append_of_all (p : Char → Bool) (l r : List Char)
    (h : ∀ a ∈ l, p a = true) : (l ++ r).dropWhile p = r.dropWhile p := by
  induction l with
  | nil => simp
  | cons a t ih =>
    simp only [List.cons_append, List.dropWhile_cons, h a (by simp), if_true, ih
      (fun x hx => h x (by simp [hx]))]

theorem foldl_digits_val : ∀ (ds : List Nat) (acc : Nat), (∀ d ∈ ds, d < 10) →
    List.foldl (fun acc c => acc * 10 + (c.toNat - 48)) acc
      (ds.reverse.map (fun d => Char.ofNat (48 + d)))
      = acc * 10 ^ ds.length + Nat.ofDigits 10 ds
  | [], acc, _ => by simp [Nat.ofDigits]
  | d :: tl, acc, h => by
    have ih := foldl_digits_val tl acc (fun x hx => h x (by simp [hx]))
    rw [List.reverse_cons, List.map_append, List.foldl_append, ih]
    simp only [List.map_cons, List.map_nil, List.foldl_cons, List.foldl_nil]
    rw [digitChar_toNat d (h d (by simp))]
    rw [Nat.ofDigits_cons, List.length_cons]
    ring_nf
    omega

theorem parseNatChars_natToChars (n : Nat) (rest : List Char)
    (hrest : rest.takeWhile (fun c => c.isDigit) = []) :
    parseNatChars (natToChars n ++ rest) = some (n, rest) := by
  have hdrop : rest.dropWhile (fun c => c.isDigit) = rest := by
    cases rest with
    | nil => rfl
    | cons a t =>
      rw [List.takeWhile_cons] at hrest
      rw [List.dropWhile_cons]
      split at hrest
      · simp at hrest
      · rename_i hpa
        rw [if_neg hpa]
  unfold parseNatChars
  rw [takeWhile_append_of_all _ _ _ (natToChars_all_digit n), hrest,
    List.append_nil,
    dropWhile_append_of_all _ _ _ (natToChars_all_digit n), hdrop]
  rw [if_neg (natToChars_ne_nil n)]
  congr 1
  refine Prod.ext ?_ rfl
  show (natToChars n).foldl (fun acc c => acc * 10 + (c.toNat - 48)) 0 = n
  unfold natToChars
  split
  · rename_i h0
    subst h0
    decide
  · rename_i h0
    rw [natDigitsAux_eq_digits (n + 1) n (by omega)]
    rw [foldl_digits_val (Nat.digits 10 n) 0
      (fun d hd => Nat.digits_lt_base (by norm_num) hd)]
    rw [Nat.ofDigits_digits]
    simp

theorem parseIntChars_intToChars (i : Int) (rest : List Char)
    (hrest : rest.takeWhile (fun c => c.isDigit) = []) :
    parseIntChars (intToChars i ++ rest) = some (i, rest) := by
  unfold intToChars
  by_cases hneg : i < 0
  · rw [if_pos hneg]
    show parseIntChars ('-' :: (natToChars i.natAbs ++ rest)) = some (i, rest)
    simp only [parseIntChars, if_true]
    rw [parseNatChars_natToChars i.natAbs rest hrest]
    simp only [Option.map_some']
    congr 2
    omega
  · rw [if_neg hneg]
    obtain ⟨c0, t0, hct⟩ : ∃ c0 t0, natToChars i.natAbs = c0 :: t0 := by
      cases hc : natToChars i.natAbs
      · exact absurd hc (natToChars_ne_nil _)
      · exact ⟨_, _, rfl⟩
    have hdig : c0.isDigit = true := by
      apply natToChars_all_digit i.natAbs
      rw [hct]
      simp
    have hnm : ¬ c0 = '-' := by
      intro hcc
      rw [hcc] at hdig
      exact absurd hdig (by decide)
    rw [hct]
    show parseIntChars (c0 :: (t0 ++ rest)) = some (i, rest)
    simp only [parseIntChars]
    rw [if_neg hnm]
    rw [show c0 :: (t0 ++ rest) = (c0 :: t0) ++ rest from rfl, ← hct]
    rw [parseNatChars_natToChars i.natAbs rest hrest]
    simp only [Option.map_some']
    congr 2
    omega

theorem parsePayload_roundtrip (p : SessionPayload) :
    parsePayloadChars (jsonStringifyPayload p) = some p := by
  have hR3 : jsonStringifyPayload p
      = ("\x7b\"clientCode\":\"" : String).data ++
        (jsonEscape p.clientCode.data ++ ('"' ::
          ((",\"iat\":" : String).data ++
            (intToChars p.iat ++ ((",\"exp\":" : String).data ++
              (intToChars p.exp ++ ['\x7d'])))))) := by
    unfold jsonStringifyPayload
    rw [show ("\",\"iat\":" : String).data
        = '"' :: (",\"iat\":" : String).data from rfl]
    simp [List.append_assoc]
  rw [hR3]
  unfold parsePayloadChars
  simp only [eatLit_append]
  have hfuel : p.clientCode.data.length
      < (jsonEscape p.clientCode.data ++ '"' ::
          ((",\"iat\":" : String).data ++
            (intToChars p.iat ++ ((",\"exp\":" : String).data ++
              (intToChars p.exp ++ ['\x7d']))))).length := by
    rw [List.length_append]
    have h1 := length_le_jsonEscape p.clientCode.data
    simp only [List.length_cons]
    omega
  rw [parseJsonString_roundtrip p.clientCode.data _ _ hfuel]
  simp only [eatLit_append]
  have hrest1 : (((",\"exp\":" : String).data ++
      (intToChars p.exp ++ ['\x7d']))).takeWhile (fun c => c.isDigit) = [] := by
    rw [show ((",\"exp\":" : String).data ++ (intToChars p.exp ++ ['\x7d']))
        = ',' :: (("\"exp\":" : String).data ++ (intToChars p.exp ++ ['\x7d']))
        from rfl]
    rw [List.takeWhile_cons, if_neg (by decide)]
  rw [parseIntChars_intToChars p.iat _ hrest1]
  simp only [eatLit_append]
  have hrest2 : (['\x7d'] : List Char).takeWhile (fun c => c.isDigit) = [] := by
    decide
  rw [parseIntChars_intToChars p.exp _ hrest2]
  rfl

/-! ## Helper lemmas: SHA-256 output shape -/

theorem shaRound_length (st : List Nat) (k w : Nat) :
    (shaRound st k w).length = st.length := by
  unfold shaRound
  split <;> simp_all

theorem foldl_shaRound_length (l : List (Nat × Nat)) (st : List Nat) :
    (l.foldl (fun s kw => shaRound s kw.1 kw.2) st).length = st.length := by
  induction l generalizing st with
  | nil => rfl
  | cons a t ih => rw [List.foldl_cons, ih, shaRound_length]

theorem shaCompress_length (hs chunk : List Nat) (h : hs.length = 8) :
    (shaCompress hs chunk).length = 8 := by
  unfold shaCompress
  rw [List.length_map, List.length_zip, foldl_shaRound_length, h]
  simp

theorem foldl_shaCompress_length (chunks : List (List Nat)) (hs : List Nat)
    (h : hs.length = 8) : (chunks.foldl shaCompress hs).length = 8 := by
  induction chunks generalizing hs with
  | nil => exact h
  | cons c t ih =>
    rw [List.foldl_cons]
    exact ih _ (shaCompress_length _ _ h)

theorem wordsToBytes_length : ∀ ws : List Nat,
    (wordsToBytes ws).length = 4 * ws.length
  | [] => rfl
  | w :: rest => by
    simp only [wordsToBytes, List.length_cons, wordsToBytes_length rest]
    ring

theorem wordsToBytes_lt256 : ∀ ws : List Nat, ∀ b ∈ wordsToBytes ws, b < 256
  | [] => by simp [wordsToBytes]
  | w :: rest => by
    intro b hb
    simp only [wordsToBytes, List.mem_cons] at hb
    rcases hb with rfl | rfl | rfl | rfl | hb
    · omega
    · omega
    · omega
    · omega
    · exact wordsToBytes_lt256 rest b hb

theorem sha256_length (msg : List Nat) : (sha256 msg).length = 32 := by
  unfold sha256
  rw [wordsToBytes_length, foldl_shaCompress_length _ _ (by rfl)]

theorem sha256_lt256 (msg : List Nat) : ∀ b ∈ sha256 msg, b < 256 := by
  unfold sha256
  exact wordsToBytes_lt256 _

theorem hmacSha256_length (key msg : List Nat) :
    (hmacSha256 key msg).length = 32 := by
  unfold hmacSha256
  exact sha256_length _

theorem hmacSha256_lt256 (key msg : List Nat) :
    ∀ b ∈ hmacSha256 key msg, b < 256 := by
  unfold hmacSha256
  exact sha256_lt256 _

/-! ## Helper lemmas: token splitting -/

theorem splitOnChar_not_mem (sep : Char) : ∀ (xs : List Char), sep ∉ xs →
    splitOnChar sep xs = [xs]
  | [], _ => rfl
  | c :: t, h => by
    have hc : ¬ c = sep := fun hcc => h (by simp [hcc])
    have ih := splitOnChar_not_mem sep t (fun hm => h (List.mem_cons_of_mem c hm))
    simp only [splitOnChar, if_neg hc, ih]

theorem splitOnChar_append (sep : Char) : ∀ (xs ys : List Char), sep ∉ xs →
    splitOnChar sep (xs ++ sep :: ys) = xs :: splitOnChar sep ys
  | [], ys, _ => by simp [splitOnChar]
  | c :: t, ys, h => by
    have hc : ¬ c = sep := fun hcc => h (by simp [hcc])
    have ih := splitOnChar_append sep t ys (fun hm => h (List.mem_cons_of_mem c hm))
    have ih2 : splitOnChar sep (t.append (sep :: ys)) = t :: splitOnChar sep ys := ih
    simp only [List.cons_append, splitOnChar, if_neg hc, ih2]

theorem base64UrlEncode_no_dot (bs : List Nat) (h : ∀ b ∈ bs, b < 256) :
    '.' ∉ (base64UrlEncode bs).data := by
  intro hm
  unfold base64UrlEncode at hm
  rcases List.mem_map.1 hm with ⟨n, hn, hc⟩
  exact b64Char_ne_dot n (encodeSextets_lt64 bs h n hn) hc

theorem encodeSextets_ne_nil (b : Nat) (bs : List Nat) :
    encodeSextets (b :: bs) ≠ [] := by
  match bs with
  | [] => simp [encodeSextets]
  | [x] => simp [encodeSextets]
  | x :: y :: rest => simp [encodeSextets]

theorem base64UrlEncode_ne_empty (b : Nat) (bs : List Nat) :
    base64UrlEncode (b :: bs) ≠ "" := by
  unfold base64UrlEncode
  intro hc
  have h2 : ((encodeSextets (b :: bs)).map b64Char) = [] := congrArg String.data hc
  rw [List.map_eq_nil] at h2
  exact encodeSextets_ne_nil b bs h2

theorem utf8EncodeList_cons_shape (c : Char) (t : List Char) :
    ∃ b bs, utf8EncodeList (c :: t) = b :: bs := by
  rw [utf8EncodeList_cons]
  cases hec : utf8EncodeChar c with
  | nil => exact absurd hec (utf8EncodeChar_ne_nil c)
  | cons b tl => exact ⟨b, tl ++ utf8EncodeList t, by simp⟩

theorem jsonStringify_cons_shape (p : SessionPayload) :
    ∃ c cs, jsonStringifyPayload p = c :: cs := by
  exact ⟨_, _, rfl⟩

theorem hmac_cons_shape (key msg : List Nat) :
    ∃ b bs, hmacSha256 key msg = b :: bs := by
  cases hc : hmacSha256 key msg with
  | nil =>
    have := hmacSha256_length key msg
    rw [hc] at this
    simp at this
  | cons b bs => exact ⟨b, bs, rfl⟩

theorem splitOnChar_cons_sep (sep : Char) (rest : List Char) :
    splitOnChar sep (sep :: rest) = [] :: splitOnChar sep rest := by
  simp [splitOnChar]

theorem splitOnChar_cons_ne (sep c : Char) (rest : List Char) (h : ¬ c = sep) :
    splitOnChar sep (c :: rest)
      = match splitOnChar sep rest with
        | s :: ss => (c :: s) :: ss
        | [] => [[c]] := by
  simp only [splitOnChar, if_neg h]

theorem payloadPart_ne_empty (payload : SessionPayload) :
    base64UrlEncode (utf8EncodeList (jsonStringifyPayload payload)) ≠ "" := by
  obtain ⟨c, cs, hj⟩ := jsonStringify_cons_shape payload
  rw [hj]
  obtain ⟨b, bs, hu⟩ := utf8EncodeList_cons_shape c cs
  rw [hu]
  exact base64UrlEncode_ne_empty b bs

theorem sigPart_ne_empty (key msg : List Nat) :
    base64UrlEncode (hmacSha256 key msg) ≠ "" := by
  obtain ⟨b, bs, hh⟩ := hmac_cons_shape key msg
  rw [hh]
  exact base64UrlEncode_ne_empty b bs

theorem payloadPart_no_dot (payload : SessionPayload) :
    '.' ∉ (base64UrlEncode (utf8EncodeList (jsonStringifyPayload payload))).data :=
  base64UrlEncode_no_dot _ (utf8EncodeList_lt256 _)

theorem sigPart_no_dot (key msg : List Nat) :
    '.' ∉ (base64UrlEncode (hmacSha256 key msg)).data :=
  base64UrlEncode_no_dot _ (hmacSha256_lt256 key msg)

theorem sign_data_shape (payload : SessionPayload) (secret : String) :
    (signSessionToken payload secret).data
      = 'v' :: '1' :: '.' ::
        ((base64UrlEncode (utf8EncodeList (jsonStringifyPayload payload))).data
          ++ '.' :: (base64UrlEncode (hmacSha256 (utf8Encode secret)
              (utf8EncodeList (signingInputChars
                (base64UrlEncode (utf8EncodeList (jsonStringifyPayload payload))).data)))).data) :=
  rfl

theorem jsSplit_sign (payload : SessionPayload) (secret : String) :
    jsSplit (signSessionToken payload secret) '.'
      = ["v1",
         base64UrlEncode (utf8EncodeList (jsonStringifyPayload payload)),
         base64UrlEncode (hmacSha256 (utf8Encode secret)
           (utf8EncodeList (signingInputChars
             (base64UrlEncode (utf8EncodeList (jsonStringifyPayload payload))).data)))] := by
  unfold jsSplit
  rw [sign_data_shape]
  have h1 : splitOnChar '.'
      ((base64UrlEncode (utf8EncodeList (jsonStringifyPayload payload))).data
        ++ '.' :: (base64UrlEncode (hmacSha256 (utf8Encode secret)
            (utf8EncodeList (signingInputChars
              (base64UrlEncode (utf8EncodeList (jsonStringifyPayload payload))).data)))).data)
      = [(base64UrlEncode (utf8EncodeList (jsonStringifyPayload payload))).data,
         (base64UrlEncode (hmacSha256 (utf8Encode secret)
           (utf8EncodeList (signingInputChars
             (base64UrlEncode (utf8EncodeList (jsonStringifyPayload payload))).data)))).data] := by
    rw [splitOnChar_append _ _ _ (payloadPart_no_dot payload),
        splitOnChar_not_mem _ _ (sigPart_no_dot _ _)]
  rw [splitOnChar_cons_ne _ _ _ (by decide), splitOnChar_cons_ne _ _ _ (by decide),
      splitOnChar_cons_sep, h1]
  rfl

theorem jsSplit_sign_junk (payload : SessionPayload) (secret : String)
    (junk : List Char) (hj : '.' ∉ junk) :
    jsSplit (String.mk ((signSessionToken payload secret).data ++ '.' :: junk)) '.'
      = ["v1",
         base64UrlEncode (utf8EncodeList (jsonStringifyPayload payload)),
         base64UrlEncode (hmacSha256 (utf8Encode secret)
           (utf8EncodeList (signingInputChars
             (base64UrlEncode (utf8EncodeList (jsonStringifyPayload payload))).data))),
         String.mk junk] := by
  unfold jsSplit
  rw [show (String.mk ((signSessionToken payload secret).data ++ '.' :: junk)).data
      = (signSessionToken payload secret).data ++ '.' :: junk from rfl]
  rw [sign_data_shape]
  simp only [List.cons_append, List.append_assoc]
  have h1 : splitOnChar '.'
      ((base64UrlEncode (utf8EncodeList (jsonStringifyPayload payload))).data
        ++ ('.' :: ((base64UrlEncode (hmacSha256 (utf8Encode secret)
            (utf8EncodeList (signingInputChars
              (base64UrlEncode (utf8EncodeList (jsonStringifyPayload payload))).data)))).data
          ++ '.' :: junk)))
      = [(base64UrlEncode (utf8EncodeList (jsonStringifyPayload payload))).data,
         (base64UrlEncode (hmacSha256 (utf8Encode secret)
           (utf8EncodeList (signingInputChars
             (base64UrlEncode (utf8EncodeList (jsonStringifyPayload payload))).data)))).data,
         junk] := by
    rw [splitOnChar_append _ _ _ (payloadPart_no_dot payload),
        splitOnChar_append _ _ _ (sigPart_no_dot _ _),
        splitOnChar_not_mem _ _ hj]
  rw [splitOnChar_cons_ne _ _ _ (by decide), splitOnChar_cons_ne _ _ _ (by decide),
      splitOnChar_cons_sep, h1]
  rfl

theorem verifySessionToken_eq_parts (token secret : String) (now : Int) :
    verifySessionToken token secret now
      = verifyParts (((jsSplit token '.').get? 0).getD "")
          (((jsSplit token '.').get? 1).getD "")
          (((jsSplit token '.').get? 2).getD "") secret now :=
  rfl

theorem verify_of_split (token secret P S : String) (now : Int) (rest : List String)
    (hsplit : jsSplit token '.' = "v1" :: P :: S :: rest) :
    verifySessionToken token secret now = verifyParts "v1" P S secret now := by
  rw [verifySessionToken_eq_parts, hsplit]
  rfl

theorem verifyParts_sign (payload : SessionPayload) (secret : String) (now : Int) :
    verifyParts "v1"
      (base64UrlEncode (utf8EncodeList (jsonStringifyPayload payload)))
      (base64UrlEncode (hmacSha256 (utf8Encode secret)
        (utf8EncodeList (signingInputChars
          (base64UrlEncode (utf8EncodeList (jsonStringifyPayload payload))).data))))
      secret now
      = .ok (if now < payload.exp then some payload else none) := by
  set P := base64UrlEncode (utf8EncodeList (jsonStringifyPayload payload)) with hPdef
  set mac := hmacSha256 (utf8Encode secret)
    (utf8EncodeList (signingInputChars P.data)) with hmacdef
  set S := base64UrlEncode mac with hSdef
  have hP : P ≠ "" := by
    rw [hPdef]
    exact payloadPart_ne_empty payload
  have hS : S ≠ "" := by
    rw [hSdef, hmacdef]
    exact sigPart_ne_empty _ _
  have hd1 : base64UrlDecode S = some mac := by
    rw [hSdef, hmacdef]
    exact base64UrlDecode_encode _ (hmacSha256_lt256 _ _)
  have hd2 : base64UrlDecode P
      = some (utf8EncodeList (jsonStringifyPayload payload)) := by
    rw [hPdef]
    exact base64UrlDecode_encode _ (utf8EncodeList_lt256 _)
  unfold verifyParts
  rw [if_neg (by
    intro hcc
    rcases hcc with hcc | hcc | hcc
    · exact hcc rfl
    · exact hP hcc
    · exact hS hcc)]
  rw [hd1]
  show (if mac ≠ mac then (Except.ok none : Except TokenThrow (Option SessionPayload))
    else
      match base64UrlDecode P with
      | none => Except.error TokenThrow.decodeError
      | some payloadBytes =>
        match utf8Decode payloadBytes with
        | none => Except.error TokenThrow.parseError
        | some chars =>
          match parsePayloadChars chars with
          | none => Except.error TokenThrow.parseError
          | some payload2 =>
            Except.ok (if now < payload2.exp then some payload2 else none))
    = Except.ok (if now < payload.exp then some payload else none)
  rw [if_neg (fun hcc => hcc rfl), hd2]
  show (match utf8Decode (utf8EncodeList (jsonStringifyPayload payload)) with
      | none => (Except.error TokenThrow.parseError :
          Except TokenThrow (Option SessionPayload))
      | some chars =>
        match parsePayloadChars chars with
        | none => Except.error TokenThrow.parseError
        | some payload2 =>
          Except.ok (if now < payload2.exp then some payload2 else none))
    = Except.ok (if now < payload.exp then some payload else none)
  rw [utf8Decode_encodeList]
  show (match parsePayloadChars (jsonStringifyPayload payload) with
      | none => (Except.error TokenThrow.parseError :
          Except TokenThrow (Option SessionPayload))
      | some payload2 =>
        Except.ok (if now < payload2.exp then some payload2 else none))
    = Except.ok (if now < payload.exp then some payload else none)
  rw [parsePayload_roundtrip]

theorem verify_of_parts (payload : SessionPayload) (secret token : String)
    (now : Int) (rest : List String)
    (hsplit : jsSplit token '.'
      = "v1"
        :: base64UrlEncode (utf8EncodeList (jsonStringifyPayload payload))
        :: base64UrlEncode (hmacSha256 (utf8Encode secret)
            (utf8EncodeList (signingInputChars
              (base64UrlEncode (utf8EncodeList (jsonStringifyPayload payload))).data)))
        :: rest) :
    verifySessionToken token secret now
      = .ok (if now < payload.exp then some payload else none) :=
  (verify_of_split token secret _ _ now rest hsplit).trans
    (verifyParts_sign payload secret now)

theorem jsSplit_three (P S : List Char) (hP : '.' ∉ P) (hS : '.' ∉ S) :
    jsSplit (String.mk ('v' :: '1' :: '.' :: (P ++ '.' :: S))) '.'
      = ["v1", String.mk P, String.mk S] := by
  unfold jsSplit
  have h1 : splitOnChar '.' (P ++ '.' :: S) = [P, S] := by
    rw [splitOnChar_append _ _ _ hP, splitOnChar_not_mem _ _ hS]
  rw [show (String.mk ('v' :: '1' :: '.' :: (P ++ '.' :: S))).data
      = 'v' :: '1' :: '.' :: (P ++ '.' :: S) from rfl]
  rw [splitOnChar_cons_ne _ _ _ (by decide), splitOnChar_cons_ne _ _ _ (by decide),
      splitOnChar_cons_sep, h1]
  rfl

/-- C4: verifying a token produced by `signSessionToken` with the same secret,
at a current time strictly before the payload's `exp`, returns exactly the
original payload. -/
theorem C4_token_roundtrip (payload : SessionPayload) (secret : String) (now : Int)
    (h : now < payload.exp) :
    verifySessionToken (signSessionToken payload secret) secret now
      = .ok (some payload) := by
  rw [verify_of_parts payload secret _ now [] (jsSplit_sign payload secret), if_pos h]

theorem C4_token_roundtrip_witness :
    verifySessionToken (signSessionToken cePayload ceSecret) ceSecret 500
      = .ok (some cePayload) :=
  C4_token_roundtrip cePayload ceSecret 500 (by decide)

/-- C5 (amended): `verifySessionToken` returns `null` — it does not throw —
when the version part differs from `"v1"` or the payload or signature part is
missing or empty, and it returns `null` for an authentic token whose embedded
expiry is at or before the current time; extra dot-separated parts beyond the
third are however ignored by the array destructuring, not rejected. -/
theorem C5_invalid_paths (token secret : String) (payload : SessionPayload) (now : Int) :
    ((((jsSplit token '.').get? 0).getD "" ≠ "v1"
        ∨ ((jsSplit token '.').get? 1).getD "" = ""
        ∨ ((jsSplit token '.').get? 2).getD "" = "")
      → verifySessionToken token secret now = .ok none)
    ∧ (payload.exp ≤ now
      → verifySessionToken (signSessionToken payload secret) secret now = .ok none) := by
  constructor
  · intro h
    rw [verifySessionToken_eq_parts]
    unfold verifyParts
    rw [if_pos h]
  · intro h
    rw [verify_of_parts payload secret _ now [] (jsSplit_sign payload secret),
        if_neg (not_lt.mpr h)]

theorem C5_invalid_paths_witness :
    verifySessionToken "v2.x.y" "s" 2000 = .ok none
    ∧ verifySessionToken (signSessionToken cePayload "s") "s" 2000 = .ok none :=
  ⟨(C5_invalid_paths "v2.x.y" "s" cePayload 2000).1 (Or.inl (by decide)),
   (C5_invalid_paths "v2.x.y" "s" cePayload 2000).2 (by decide)⟩

/-- C5 counterexample: appending `".junk"` to an authentic token yields a token
with four dot-separated parts, which the claim says must be rejected; the
destructuring `const [version, payloadPart, signaturePart] = token.split(".")`
silently drops the fourth part and verification accepts the token. -/
theorem C5_counterexample :
    (jsSplit (signSessionToken cePayload ceSecret ++ ".junk") '.').length = 4
    ∧ verifySessionToken (signSessionToken cePayload ceSecret ++ ".junk") ceSecret 500
      = .ok (some cePayload) := by
  have hjd : '.' ∉ ("junk" : String).data := by decide
  have htok : signSessionToken cePayload ceSecret ++ ".junk"
      = String.mk ((signSessionToken cePayload ceSecret).data
          ++ '.' :: ("junk" : String).data) := rfl
  have hsplit := jsSplit_sign_junk cePayload ceSecret ("junk" : String).data hjd
  constructor
  · rw [htok, hsplit]
    rfl
  · rw [htok, verify_of_parts cePayload ceSecret _ 500
      [String.mk ("junk" : String).data] hsplit]
    rw [if_pos (by decide : (500 : Int) < cePayload.exp)]

/-- C6 (amended): replacing the signature segment of a signed token by any
other dot-free nonempty segment is rejected unless the new segment still
decodes to the original MAC bytes: a segment `atob` cannot decode makes
`verifySessionToken` throw (surfacing as the worker's generic 500), and a
segment decoding to any byte sequence other than the recomputed HMAC returns
`null` (invalid).  Single-character replacements that leave the decoded bytes
unchanged exist and are accepted (see the counterexample). -/
theorem C6_signature_tamper (payload : SessionPayload) (secret sig2 : String)
    (now : Int) (hne : sig2 ≠ "") (hnd : '.' ∉ sig2.data) :
    (base64UrlDecode sig2 = none
      → verifySessionToken (String.mk (signingInputChars
          (base64UrlEncode (utf8EncodeList (jsonStringifyPayload payload))).data
          ++ '.' :: sig2.data)) secret now = .error .decodeError)
    ∧ (∀ bs, base64UrlDecode sig2 = some bs
      → bs ≠ hmacSha256 (utf8Encode secret)
          (utf8EncodeList (signingInputChars
            (base64UrlEncode (utf8EncodeList (jsonStringifyPayload payload))).data))
      → verifySessionToken (String.mk (signingInputChars
          (base64UrlEncode (utf8EncodeList (jsonStringifyPayload payload))).data
          ++ '.' :: sig2.data)) secret now = .ok none) := by
  set P := base64UrlEncode (utf8EncodeList (jsonStringifyPayload payload)) with hPdef
  have hP : P ≠ "" := by
    rw [hPdef]
    exact payloadPart_ne_empty payload
  have hsplit : jsSplit (String.mk (signingInputChars P.data ++ '.' :: sig2.data)) '.'
      = ["v1", P, sig2] := by
    rw [show signingInputChars P.data ++ '.' :: sig2.data
        = 'v' :: '1' :: '.' :: (P.data ++ '.' :: sig2.data) from rfl]
    exact jsSplit_three P.data sig2.data (payloadPart_no_dot payload) hnd
  have hcond : ¬(("v1" : String) ≠ "v1" ∨ P = "" ∨ sig2 = "") := by
    intro hcc
    rcases hcc with hcc | hcc | hcc
    · exact hcc rfl
    · exact hP hcc
    · exact hne hcc
  constructor
  · intro hdec
    rw [verify_of_split _ secret _ _ now [] hsplit]
    unfold verifyParts
    rw [if_neg hcond, hdec]
  · intro bs hdec hne2
    rw [verify_of_split _ secret _ _ now [] hsplit]
    unfold verifyParts
    rw [if_neg hcond, hdec]
    show (if bs ≠ hmacSha256 (utf8Encode secret)
        (utf8EncodeList (signingInputChars P.data))
      then (Except.ok none : Except TokenThrow (Option SessionPayload))
      else
        match base64UrlDecode P with
        | none => Except.error TokenThrow.decodeError
        | some payloadBytes =>
          match utf8Decode payloadBytes with
          | none => Except.error TokenThrow.parseError
          | some chars =>
            match parsePayloadChars chars with
            | none => Except.error TokenThrow.parseError
            | some payload2 =>
              Except.ok (if now < payload2.exp then some payload2 else none))
      = Except.ok none
    rw [if_pos hne2]

theorem C6_signature_tamper_witness :
    verifySessionToken (String.mk (signingInputChars
      (base64UrlEncode (utf8EncodeList (jsonStringifyPayload cePayload))).data
      ++ '.' :: ("!" : String).data)) "s" 0 = .error .decodeError :=
  (C6_signature_tamper cePayload "s" "!" 0 (by decide) (by decide)).1 (by decide)

/-- C6 counterexample: bumping the last character of an authentic token's
signature segment to the next base64url character yields a different token that
verification nevertheless accepts, because the final character of a 43-character
unpadded segment contributes only its high four bits to the decoded bytes and
`atob` discards the trailing bits. -/
theorem C6_counterexample :
    tamperLastChar ceToken ≠ ceToken
    ∧ verifySessionToken (tamperLastChar ceToken) ceSecret 500
      = .ok (some cePayload) := by
  constructor
  · decide
  · decide

end Vault
